import Mathlib

/-!
Verification of the execution subsystem of the zoekt-mcp repository.

This file gives a shallow embedding, in Lean 4, of the Python code under
`src/`: the static safety validator (`src/execution/safety.py`), the CLI
parser and argument coercer plus the subprocess result pipeline
(`src/execution/runner.py`), and the capability catalog loader
(`src/capabilities/catalog.py`).  Python dictionaries become association
lists with overwrite-on-assignment, Python exceptions become `Except`,
and the dynamic `Any` values flowing through the arg schemas become the
inductive `PyVal`.  Behaviour of Python standard-library primitives that
the code calls (str.strip, str.splitlines, shlex.split, shlex.quote,
int(), UTF-8 decoding with replacement) is embedded by small executable
functions that mirror the documented CPython semantics on the value
domain exercised by this repository.
-/

set_option maxHeartbeats 1000000

namespace ZoektMcp

/-- Model of a dynamically typed Python value as it occurs in manifests,
parsed CLI arguments and schema entries: strings, ints, bools and None. -/
inductive PyVal where
  | str (s : String)
  | int (n : Int)
  | bool (b : Bool)
  | none
  deriving DecidableEq, Repr

/-- Python `str(v)` on the modelled value domain. -/
def pyStr : PyVal → String
  | .str s => s
  | .int n => if n < 0 then "-" ++ toString n.natAbs else toString n.natAbs
  | .bool b => if b then "True" else "False"
  | .none => "None"

/-- Python truthiness (`bool(v)`) on the modelled value domain. -/
def pyTruthy : PyVal → Bool
  | .str s => s ≠ ""
  | .int n => n ≠ 0
  | .bool b => b
  | .none => false

/-- The characters Python `str.strip()` removes: the Unicode whitespace
set used by `str.isspace`. -/
def pyIsSpace (c : Char) : Bool :=
  let n := c.toNat
  n = 0x20 || n = 0x09 || n = 0x0a || n = 0x0d || n = 0x0b || n = 0x0c ||
  (0x1c ≤ n && n ≤ 0x1f) || n = 0x85 || n = 0xa0 || n = 0x1680 ||
  (0x2000 ≤ n && n ≤ 0x200a) || n = 0x2028 || n = 0x2029 || n = 0x202f ||
  n = 0x205f || n = 0x3000

/-- Strip `pyIsSpace` characters from both ends of a character list. -/
def stripCharsList (l : List Char) : List Char :=
  ((l.dropWhile pyIsSpace).reverse.dropWhile pyIsSpace).reverse

/-- Python `s.strip()` (no argument: whitespace on both ends). -/
def pyStrip (s : String) : String :=
  ⟨stripCharsList s.data⟩

/-- Python `s.lower()` restricted to the ASCII range, which is all the
code applies it to (schema type names and boolean literals). -/
def pyLower (s : String) : String :=
  ⟨s.data.map Char.toLower⟩

/-- Executable prefix test on lists, used to model `str.startswith`. -/
def listStarts [DecidableEq α] : List α → List α → Bool
  | _, [] => true
  | [], _ :: _ => false
  | a :: as, b :: bs => a = b && listStarts as bs

/-- Python `s.startswith(p)`. -/
def pyStarts (s p : String) : Bool :=
  listStarts s.data p.data

/-- Substring containment, used to state that stderr "contains" a
message. -/
def strContains (big small : String) : Prop :=
  ∃ l r, big = l ++ small ++ r

theorem listStarts_append (p s : List Char) : listStarts (p ++ s) p = true := by
  induction p with
  | nil => cases s <;> rfl
  | cons a as ih => simp [listStarts, ih]

theorem pyStarts_append (p s : String) : pyStarts (p ++ s) p = true := by
  unfold pyStarts
  rw [show (p ++ s).data = p.data ++ s.data from rfl]
  exact listStarts_append p.data s.data

theorem stripCharsList_eq_self {l : List Char}
    (h1 : ∀ c, l.head? = some c → pyIsSpace c = false)
    (h2 : ∀ c, l.getLast? = some c → pyIsSpace c = false) :
    stripCharsList l = l := by
  unfold stripCharsList
  have hd : l.dropWhile pyIsSpace = l := by
    cases l with
    | nil => rfl
    | cons a as =>
      rw [List.dropWhile_cons]
      simp [h1 a rfl]
  rw [hd]
  have hrev : l.reverse.dropWhile pyIsSpace = l.reverse := by
    cases hr : l.reverse with
    | nil => rfl
    | cons a as =>
      rw [List.dropWhile_cons]
      have : l.getLast? = some a := by
        rw [← List.head?_reverse, hr]; rfl
      simp [h2 a this]
  rw [hrev, List.reverse_reverse]

theorem pyStrip_eq_self {s : String}
    (h1 : ∀ c, s.data.head? = some c → pyIsSpace c = false)
    (h2 : ∀ c, s.data.getLast? = some c → pyIsSpace c = false) :
    pyStrip s = s := by
  unfold pyStrip
  rw [stripCharsList_eq_self h1 h2]

/-- Association-list lookup, modelling Python `dict.get`. -/
def dictGet [DecidableEq κ] (m : List (κ × ν)) (k : κ) : Option ν :=
  match m with
  | [] => Option.none
  | (k', v) :: rest => if k = k' then some v else dictGet rest k

/-- Membership test, modelling Python `k in d`. -/
def dictHas [DecidableEq κ] (m : List (κ × ν)) (k : κ) : Bool :=
  (dictGet m k).isSome

/-- Assignment `d[k] = v` on a Python dict: overwrite in place when the
key exists, append otherwise. -/
def dictSet [DecidableEq κ] (m : List (κ × ν)) (k : κ) (v : ν) : List (κ × ν) :=
  match m with
  | [] => [(k, v)]
  | (k', v') :: rest => if k = k' then (k, v) :: rest else (k', v') :: dictSet rest k v

theorem dictGet_dictSet [DecidableEq κ] (m : List (κ × ν)) (k k' : κ) (v : ν) :
    dictGet (dictSet m k v) k' = if k' = k then some v else dictGet m k' := by
  induction m with
  | nil =>
    by_cases h : k' = k <;> simp [dictSet, dictGet, h]
  | cons p rest ih =>
    obtain ⟨k₀, v₀⟩ := p
    by_cases hk : k = k₀
    · subst hk
      by_cases h : k' = k <;> simp [dictSet, dictGet, h]
    · by_cases h : k' = k₀
      · subst h
        simp [dictSet, if_neg hk, dictGet, if_pos rfl, Ne.symm hk]
      · simp [dictSet, if_neg hk, dictGet, if_neg h, ih]

theorem dictSet_keys (m : List (κ × ν)) (k : κ) (v : ν) [DecidableEq κ] :
    (dictSet m k v).map Prod.fst =
      if k ∈ m.map Prod.fst then m.map Prod.fst else m.map Prod.fst ++ [k] := by
  induction m with
  | nil => simp [dictSet]
  | cons p rest ih =>
    obtain ⟨k₀, v₀⟩ := p
    by_cases hk : k = k₀
    · subst hk
      simp [dictSet]
    · simp only [dictSet, if_neg hk, List.map_cons, ih]
      by_cases hmem : k ∈ rest.map Prod.fst
      · simp [hmem, Ne.symm hk, hk]
      · simp [hmem, Ne.symm hk, hk]

theorem dictSet_keys_nodup [DecidableEq κ] (m : List (κ × ν)) (k : κ) (v : ν)
    (h : (m.map Prod.fst).Nodup) : ((dictSet m k v).map Prod.fst).Nodup := by
  rw [dictSet_keys]
  by_cases hmem : k ∈ m.map Prod.fst
  · simpa [hmem] using h
  · simp only [hmem, if_false]
    refine List.Nodup.append h (List.nodup_singleton k) ?_
    intro a ha hb
    rw [List.mem_singleton] at hb
    exact hmem (hb ▸ ha)

/-! ## Model of shlex.split (POSIX mode) and shlex.quote

`parse_workflow_cli_command` tokenises its command with
`shlex.split(command, posix=True)`.  The state machine below embeds the
POSIX rules the Python lexer applies with its default configuration:
whitespace separates words; a backslash outside quotes escapes the next
character; single quotes protect everything up to the next single quote;
double quotes protect everything except a backslash followed by a double
quote or a backslash; an unterminated quote or trailing backslash raises
ValueError, whose messages are reproduced verbatim. -/

/-- Lexer mode: outside any quote, inside single quotes, inside double
quotes. -/
inductive ShMode where
  | norm
  | sq
  | dq
  deriving DecidableEq, Repr

/-- The shlex word separators (its `whitespace` attribute). -/
def shlexIsSpace (c : Char) : Bool :=
  c = ' ' || c = '\t' || c = '\r' || c = '\n'

/-- Finish the word accumulated in reverse order. -/
def shWord (cur : List Char) : String :=
  ⟨cur.reverse⟩

/-- One pass of the shlex state machine over the remaining characters.
`inWord` records whether a word is open (so that `''` yields an empty
token), `cur` holds the current word reversed. -/
def shSplitAux : List Char → ShMode → Bool → List Char → Except String (List String)
  | [], .norm, inWord, cur => .ok (if inWord then [shWord cur] else [])
  | [], .sq, _, _ => .error "No closing quotation"
  | [], .dq, _, _ => .error "No closing quotation"
  | c :: rest, .norm, inWord, cur =>
    if shlexIsSpace c then
      if inWord then
        (fun ts => shWord cur :: ts) <$> shSplitAux rest .norm false []
      else
        shSplitAux rest .norm false []
    else if c = '\'' then
      shSplitAux rest .sq true cur
    else if c = '"' then
      shSplitAux rest .dq true cur
    else if c = '\\' then
      match rest with
      | [] => .error "No escaped character"
      | d :: rest' => shSplitAux rest' .norm true (d :: cur)
    else
      shSplitAux rest .norm true (c :: cur)
  | c :: rest, .sq, inWord, cur =>
    if c = '\'' then
      shSplitAux rest .norm inWord cur
    else
      shSplitAux rest .sq inWord (c :: cur)
  | c :: rest, .dq, inWord, cur =>
    if c = '"' then
      shSplitAux rest .norm inWord cur
    else if c = '\\' then
      match rest with
      | [] => .error "No escaped character"
      | d :: rest' =>
        if d = '"' || d = '\\' then
          shSplitAux rest' .dq inWord (d :: cur)
        else
          shSplitAux rest' .dq inWord (d :: '\\' :: cur)
    else
      shSplitAux rest .dq inWord (c :: cur)

/-- `shlex.split(s, posix=True)`. -/
def shlexSplit (s : String) : Except String (List String) :=
  shSplitAux s.data .norm false []

/-- The characters `shlex.quote` leaves unquoted: ASCII word characters
plus at-sign, percent, plus, equals, colon, comma, dot, slash, dash. -/
def shSafeChar (c : Char) : Bool :=
  let n := c.toNat
  (48 ≤ n && n ≤ 57) || (65 ≤ n && n ≤ 90) || (97 ≤ n && n ≤ 122) ||
  n = 95 || n = 64 || n = 37 || n = 43 || n = 61 || n = 58 || n = 44 ||
  n = 46 || n = 47 || n = 45

/-- Body of a single-quoted string: each single quote is replaced by the
five characters of a closing quote, a double-quoted quote and a
reopening quote. -/
def shQuoteBody : List Char → List Char
  | [] => []
  | c :: rest =>
    if c = '\'' then '\'' :: '"' :: '\'' :: '"' :: '\'' :: shQuoteBody rest
    else c :: shQuoteBody rest

/-- `shlex.quote(s)`. -/
def shQuote (s : String) : String :=
  if s = "" then "''"
  else if s.data.all shSafeChar then s
  else ⟨'\'' :: shQuoteBody s.data ++ ['\'']⟩

/-! ## Model of Python int() on strings

`_coerce_cli_arg_value` coerces integer arguments with `int(raw_value)`.
On strings, CPython strips whitespace, accepts an optional sign, then
decimal digits with single underscores allowed between digits. -/

/-- Digit value of an ASCII digit character. -/
def digitVal (c : Char) : Nat :=
  c.toNat - 48

/-- Consume digits and single inter-digit underscores after at least one
digit has been read. -/
def pyDigitsAux : List Char → Nat → Option Nat
  | [], acc => some acc
  | c :: rest, acc =>
    if c = '_' then
      match rest with
      | [] => Option.none
      | d :: rest' => if d.isDigit then pyDigitsAux rest' (acc * 10 + digitVal d) else Option.none
    else if c.isDigit then pyDigitsAux rest (acc * 10 + digitVal c) else Option.none

/-- Parse an unsigned decimal literal (at least one digit, underscores
only between digits). -/
def pyParseNat : List Char → Option Nat
  | [] => Option.none
  | c :: rest => if c.isDigit then pyDigitsAux rest (digitVal c) else Option.none

/-- Python `int(s)` for a string `s`: `None` models ValueError. -/
def pyIntOfString (s : String) : Option Int :=
  match stripCharsList s.data with
  | [] => Option.none
  | c :: rest =>
    if c = '-' then (fun n => -(n : Int)) <$> pyParseNat rest
    else if c = '+' then (fun n => (n : Int)) <$> pyParseNat rest
    else (fun n => (n : Int)) <$> pyParseNat (c :: rest)

/-- Python `int(v)` on the modelled value domain: ints pass through,
bools become 0 or 1, strings are parsed, None raises TypeError. -/
def pyIntOf : PyVal → Option Int
  | .int n => some n
  | .bool b => some (if b then 1 else 0)
  | .str s => pyIntOfString s
  | .none => Option.none

/-! ## CLI parser and argument coercer (runner.py)

`ExecutionRunner.parse_workflow_cli_command` and its helpers
`_workflow_usage`, `_workflow_flag_aliases` and `_coerce_cli_arg_value`.
A workflow manifest entry is modelled by the parts of it the parser
reads: its `arg_schema` value, which may be absent, a non-dict, or a
dict of per-argument schema entries that are themselves either dicts of
`PyVal` fields or non-dicts. -/

/-- A per-argument schema value: either not a dict (replaced by
`{"type": "string"}` at use sites) or a dict of fields. -/
inductive SchemaEntry where
  | notDict (v : PyVal)
  | isDict (fields : List (String × PyVal))
  deriving DecidableEq, Repr

/-- The `arg_schema` value of a workflow entry. -/
inductive RawSchema where
  | absent
  | notDict (v : PyVal)
  | dict (entries : List (String × SchemaEntry))
  deriving DecidableEq, Repr

/-- The parts of a manifest workflow entry that the CLI parser reads. -/
structure Workflow where
  argSchema : RawSchema
  deriving DecidableEq, Repr

/-- `self._workflow_index`: capability id to workflow entry. -/
def WorkflowIndex := List (String × Workflow)

/-- Python `name.replace("_", "-")`. -/
def dashed (s : String) : String :=
  ⟨s.data.map (fun c => if c = '_' then '-' else c)⟩

/-- Naive Python `repr` on the modelled values (strings gain single
quotes); used only inside error messages. -/
def pyRepr : PyVal → String
  | .str s => "'" ++ s ++ "'"
  | .int n => pyStr (.int n)
  | .bool b => if b then "True" else "False"
  | .none => "None"

/-- Insertion sort on strings, modelling Python `sorted`. -/
def insertStr (s : String) : List String → List String
  | [] => [s]
  | x :: xs => if s ≤ x then s :: x :: xs else x :: insertStr s xs

/-- Python `sorted` on a list of strings. -/
def sortStrs : List String → List String
  | [] => []
  | x :: xs => insertStr x (sortStrs xs)

/-- The entries of an `arg_schema` after the guard
`if not isinstance(arg_schema, dict): arg_schema = {}`. -/
def schemaEntries : RawSchema → List (String × SchemaEntry)
  | .dict es => es
  | _ => []

/-- `_workflow_flag_aliases`: two aliases per argument name, later
assignments overwriting earlier ones. -/
def workflowFlagAliases (entries : List (String × SchemaEntry)) : List (String × String) :=
  entries.foldl
    (fun aliases kv =>
      dictSet (dictSet aliases ("--" ++ kv.1) kv.1) ("--" ++ dashed kv.1) kv.1)
    []

/-- Whether a schema entry is a dict whose `required` field is truthy. -/
def entryRequired : SchemaEntry → Bool
  | .notDict _ => false
  | .isDict fields =>
    match dictGet fields "required" with
    | some v => pyTruthy v
    | Option.none => false

/-- `_workflow_usage`: the usage string appended to every parser
error. -/
def workflowUsage (workflowId : String) (entries : List (String × SchemaEntry)) : String :=
  let parts := entries.map (fun kv =>
    let flag := "--" ++ dashed kv.1
    if entryRequired kv.2 then flag ++ " <value>" else "[" ++ flag ++ " <value>]")
  let suffix := if parts = [] then "" else " " ++ String.intercalate " " parts
  "Usage: " ++ workflowId ++ suffix

/-- The schema dict used to coerce one argument:
`schema = arg_schema.get(arg_name); if not isinstance(schema, dict):
schema = {"type": "string"}`. -/
def effectiveEntry (entries : List (String × SchemaEntry)) (argName : String) :
    List (String × PyVal) :=
  match dictGet entries argName with
  | some (.isDict fields) => fields
  | _ => [("type", .str "string")]

/-- `_coerce_cli_arg_value`. -/
def coerceCliArgValue (argName : String) (rawValue : PyVal)
    (fields : List (String × PyVal)) (usage : String) : Except String PyVal :=
  let argType := pyLower (pyStrip (pyStr ((dictGet fields "type").getD (.str "string"))))
  if argType = "string" then
    .ok (.str (pyStr rawValue))
  else if argType = "integer" then
    match pyIntOf rawValue with
    | some n => .ok (.int n)
    | Option.none =>
      .error ("args validation failure: invalid integer for `--" ++ dashed argName ++
        "`: " ++ pyRepr rawValue ++ ". " ++ usage)
  else if argType = "boolean" then
    let value := pyLower (pyStrip (pyStr rawValue))
    if value = "true" || value = "1" || value = "yes" || value = "on" then
      .ok (.bool true)
    else if value = "false" || value = "0" || value = "no" || value = "off" then
      .ok (.bool false)
    else
      .error ("args validation failure: invalid boolean for `--" ++ dashed argName ++
        "`: " ++ pyRepr rawValue ++ ". " ++ usage)
  else
    .error ("args validation failure: unsupported arg type `" ++ argType ++
      "` for `--" ++ dashed argName ++ "`. " ++ usage)

/-- The `while index < len(tokens)` loop of `parse_workflow_cli_command`:
consume `--flag value` pairs, accumulating into `parsed`. -/
def parseFlagTokens (aliases : List (String × String))
    (entries : List (String × SchemaEntry)) (usage : String) :
    List String → List (String × PyVal) → Except String (List (String × PyVal))
  | [], parsed => .ok parsed
  | token :: rest, parsed =>
    if pyStarts token "--" = false then
      .error ("args validation failure: unexpected positional argument `" ++ token ++
        "`. " ++ usage)
    else
      match dictGet aliases token with
      | Option.none =>
        .error ("args validation failure: unknown flag `" ++ token ++ "`. " ++ usage)
      | some argName =>
        if dictHas parsed argName then
          .error ("args validation failure: duplicate flag `" ++ token ++ "`. " ++ usage)
        else
          match rest with
          | [] =>
            .error ("args validation failure: missing value for `" ++ token ++ "`. " ++ usage)
          | valueTok :: rest' =>
            if pyStarts valueTok "--" then
              .error ("args validation failure: missing value for `" ++ token ++ "`. " ++ usage)
            else
              match coerceCliArgValue argName (.str valueTok) (effectiveEntry entries argName) usage with
              | .error e => .error e
              | .ok v => parseFlagTokens aliases entries usage rest' (dictSet parsed argName v)

/-- The defaulting loop: any schema entry not yet parsed whose dict
carries `default` has the default coerced through the same path. -/
def applyDefaults (usage : String) :
    List (String × SchemaEntry) → List (String × PyVal) → Except String (List (String × PyVal))
  | [], parsed => .ok parsed
  | (k, e) :: rest, parsed =>
    if dictHas parsed k then applyDefaults usage rest parsed
    else
      match e with
      | .notDict _ => applyDefaults usage rest parsed
      | .isDict fields =>
        match dictGet fields "default" with
        | Option.none => applyDefaults usage rest parsed
        | some dv =>
          match coerceCliArgValue k dv fields usage with
          | .error err => .error err
          | .ok v => applyDefaults usage rest (dictSet parsed k v)

/-- The final required-args check of `parse_workflow_cli_command`. -/
def missingRequired (entries : List (String × SchemaEntry))
    (parsed : List (String × PyVal)) : List String :=
  (entries.filter (fun kv => entryRequired kv.2 && !dictHas parsed kv.1)).map Prod.fst

/-- Parse the token list that follows the workflow id. -/
def parseArgTokens (workflowId : String) (wf : Workflow) (tokens : List String) :
    Except String (List (String × PyVal)) :=
  let entries := schemaEntries wf.argSchema
  let usage := workflowUsage workflowId entries
  let aliases := workflowFlagAliases entries
  match parseFlagTokens aliases entries usage tokens [] with
  | .error e => .error e
  | .ok parsed =>
    match applyDefaults usage entries parsed with
    | .error e => .error e
    | .ok parsed' =>
      let missing := missingRequired entries parsed'
      if missing = [] then .ok parsed'
      else
        .error ("args validation failure: missing required flags: " ++
          String.intercalate ", " (missing.map (fun m => "--" ++ dashed m)) ++ ". " ++ usage)

/-- `ExecutionRunner.parse_workflow_cli_command`. -/
def parseWorkflowCliCommand (index : WorkflowIndex) (command : String) :
    Except String (String × List (String × PyVal)) :=
  let command := pyStrip command
  if command = "" then
    .error "args validation failure: command must not be empty"
  else
    match shlexSplit command with
    | .error e => .error ("args validation failure: invalid command: " ++ e)
    | .ok [] => .error "args validation failure: command must not be empty"
    | .ok (workflowId :: rest) =>
      match dictGet index workflowId with
      | Option.none =>
        .error ("args validation failure: unknown workflow_id: " ++ workflowId ++
          ". Available workflows: " ++
          String.intercalate ", " (sortStrs (index.map Prod.fst)))
      | some wf =>
        match parseArgTokens workflowId wf rest with
        | .error e => .error e
        | .ok args => .ok (workflowId, args)

/-! ## Safety validator (safety.py)

`validate_custom_workflow_code` parses the caller-supplied program with
`ast.parse` (Python stdlib) and then iterates `ast.walk(tree)`, a
stdlib breadth-first flattening of the tree.  The embedding therefore
takes the walked node sequence as input: each visited AST node is
abstracted to the constructor the validator can distinguish, and every
node of a kind the validator never matches is `otherNode`.  A
syntactically invalid program never reaches this loop (its single
`syntax_error:` rejection is produced before it), so the embedding
covers the walk onward. -/

/-- Comparison operators, as far as `_is_name_main_guard` looks. -/
inductive CmpOp where
  | eq
  | otherOp
  deriving DecidableEq, Repr

/-- Expressions, as far as `_is_name_main_guard` inspects an `if` test:
a comparison of a name against constants, or anything else. -/
inductive PyExpr where
  | nameE (id : String)
  | constE (v : PyVal)
  | compareE (left : PyExpr) (ops : List CmpOp) (comparators : List PyExpr)
  | otherE

/-- The callee of a call expression, as far as `_call_name` looks. -/
inductive CallTarget where
  | nameF (id : String)
  | attributeF (attr : String)
  | otherF
  deriving DecidableEq, Repr

/-- One walked AST node, abstracted to what the validator matches on. -/
inductive PyNode where
  | functionDef (nm : String)
  | asyncFunctionDef (nm : String)
  | ifStmt (test : PyExpr)
  | importStmt (aliasNames : List String)
  | importFrom (module : Option String) (aliasNames : List String)
  | callE (func : CallTarget)
  | otherNode

def allowedImports : List String :=
  ["argparse", "asyncio", "json", "sys", "runtime.zoekt_tools"]

def bannedImportRoots : List String :=
  ["builtins", "ctypes", "importlib", "multiprocessing", "os", "pathlib",
   "shlex", "shutil", "socket", "subprocess", "tempfile"]

def bannedCalls : List String :=
  ["compile", "eval", "exec", "input", "open", "__import__"]

/-- `_check_import`: returns the rejection list with any new rejection
appended. -/
def checkImport (moduleName : String) (rejections : List String) : List String :=
  if moduleName = "" then rejections
  else if bannedImportRoots.any
      (fun banned => moduleName = banned || pyStarts moduleName (banned ++ ".")) then
    rejections ++ ["banned_import: " ++ moduleName]
  else if moduleName ∈ allowedImports then rejections
  else if allowedImports.any (fun allowed => pyStarts moduleName (allowed ++ ".")) then
    rejections
  else rejections ++ ["disallowed_import: " ++ moduleName]

/-- `_is_name_main_guard`. -/
def isNameMainGuard (test : PyExpr) : Bool :=
  match test with
  | .compareE left ops comparators =>
    (match left with
     | .nameE id => id = "__name__"
     | _ => false) &&
    (ops = [.eq]) &&
    (match comparators with
     | [comparator] =>
       match comparator with
       | .constE v => v = .str "__main__"
       | _ => false
     | _ => false)
  | _ => false

/-- `_call_name`. -/
def callName : CallTarget → Option String
  | .nameF id => some id
  | .attributeF attr => some attr
  | .otherF => Option.none

/-- Mutable state of the walk loop in `validate_custom_workflow_code`. -/
structure ValidateState where
  hasParseArgs : Bool := false
  hasMain : Bool := false
  hasMainGuard : Bool := false
  hasRun : Bool := false
  rejections : List String := []
  deriving DecidableEq, Repr

/-- The body of `for node in ast.walk(tree)`, one node at a time. -/
def validateStep (st : ValidateState) (node : PyNode) : ValidateState :=
  let st :=
    match node with
    | .functionDef nm => if nm = "parse_args" then { st with hasParseArgs := true } else st
    | _ => st
  let st :=
    match node with
    | .functionDef nm => if nm = "main" then { st with hasMain := true } else st
    | .asyncFunctionDef nm => if nm = "main" then { st with hasMain := true } else st
    | _ => st
  let st :=
    match node with
    | .functionDef nm => if nm = "run" then { st with hasRun := true } else st
    | .asyncFunctionDef nm => if nm = "run" then { st with hasRun := true } else st
    | _ => st
  let st :=
    match node with
    | .ifStmt test => if isNameMainGuard test then { st with hasMainGuard := true } else st
    | _ => st
  let st :=
    match node with
    | .importStmt aliasNames =>
      { st with rejections := aliasNames.foldl (fun rej nm => checkImport nm rej) st.rejections }
    | _ => st
  let st :=
    match node with
    | .importFrom module _ =>
      { st with rejections := checkImport (module.getD "") st.rejections }
    | _ => st
  match node with
  | .callE func =>
    match callName func with
    | some nm =>
      if nm ∈ bannedCalls then { st with rejections := st.rejections ++ ["banned_call: " ++ nm] }
      else st
    | Option.none => st
  | _ => st

/-- De-duplication preserving first occurrence (the `seen` set loop). -/
def dedupFirstAux (seen : List String) : List String → List String
  | [] => []
  | r :: rest =>
    if r ∈ seen then dedupFirstAux seen rest
    else r :: dedupFirstAux (r :: seen) rest

def dedupFirst (l : List String) : List String :=
  dedupFirstAux [] l

/-- `validate_custom_workflow_code` from the walked node sequence on:
the walk loop, the entrypoint checks and the de-duplication. -/
def validateCustomWorkflowCode (nodes : List PyNode) : List String :=
  let st := nodes.foldl validateStep {}
  let hasLegacyEntrypoint := st.hasParseArgs && st.hasMain && st.hasMainGuard
  let hasMinimalEntrypoint := st.hasRun
  let rejections :=
    if !hasMinimalEntrypoint && !hasLegacyEntrypoint then
      let r := st.rejections
      let r := if !st.hasRun then r ++ ["missing_required_entrypoint: run(args) or async run(args)"] else r
      let r := if !st.hasParseArgs then r ++ ["missing_required_entrypoint: parse_args (legacy mode)"] else r
      let r := if !st.hasMain then r ++ ["missing_required_entrypoint: main (legacy mode)"] else r
      if !st.hasMainGuard then
        r ++ ["missing_required_entrypoint: if __name__ == '__main__' (legacy mode)"]
      else r
    else st.rejections
  dedupFirst rejections

/-! ## Execution results and the subprocess output pipeline (runner.py)

`_execute` decodes the raw child output (UTF-8, `errors="replace"`),
extracts the result marker, caps both streams and assembles an
`ExecutionResult`.  JSON payloads are modelled by `JsonVal`; the stdlib
`json.loads` is a parameter `loads` of the pipeline, with `.ok .null`
playing the role of a successful parse returning Python `None`. -/

/-- A JSON value as stored in `result_json`; `null` doubles as the
Python `None` the field is initialised with. -/
inductive JsonVal where
  | null
  | jbool (b : Bool)
  | jint (n : Int)
  | jstr (s : String)
  deriving DecidableEq, Repr

/-- The result record defined in `execution/models.py`. -/
structure ExecutionResult where
  success : Bool
  exit_code : Int
  stdout : String := ""
  stderr : String := ""
  result_json : JsonVal := .null
  timing_ms : Int := 0
  safety_rejections : List String := []
  deriving DecidableEq, Repr

/-- UTF-8 encoding of one scalar value. -/
def utf8EncodeChar (c : Char) : List Nat :=
  let n := c.toNat
  if n < 0x80 then [n]
  else if n < 0x800 then [0xC0 + n / 64, 0x80 + n % 64]
  else if n < 0x10000 then [0xE0 + n / 4096, 0x80 + n / 64 % 64, 0x80 + n % 64]
  else [0xF0 + n / 262144, 0x80 + n / 4096 % 64, 0x80 + n / 64 % 64, 0x80 + n % 64]

/-- UTF-8 encoding of a character list. -/
def utf8EncodeList : List Char → List Nat
  | [] => []
  | c :: cs => utf8EncodeChar c ++ utf8EncodeList cs

/-- Python `s.encode("utf-8")`. -/
def utf8Encode (s : String) : List Nat :=
  utf8EncodeList s.data

/-- Byte length of a string under UTF-8. -/
def utf8Len (s : String) : Nat :=
  (utf8Encode s).length

/-- A UTF-8 continuation byte. -/
def isCont (b : Nat) : Bool :=
  0x80 ≤ b && b ≤ 0xBF

/-- Valid first continuation byte after a three-byte lead (excluding
overlong forms and surrogates, as CPython does). -/
def valid3First (b b1 : Nat) : Bool :=
  if b = 0xE0 then 0xA0 ≤ b1 && b1 ≤ 0xBF
  else if b = 0xED then 0x80 ≤ b1 && b1 ≤ 0x9F
  else isCont b1

/-- Valid first continuation byte after a four-byte lead. -/
def valid4First (b b1 : Nat) : Bool :=
  if b = 0xF0 then 0x90 ≤ b1 && b1 ≤ 0xBF
  else if b = 0xF4 then 0x80 ≤ b1 && b1 ≤ 0x8F
  else isCont b1

/-- The replacement character U+FFFD. -/
def fffd : Char := Char.ofNat 0xFFFD

/-- Python `bytes.decode("utf-8", errors="replace")`: each maximal
invalid subsequence becomes one U+FFFD, following the CPython codec. -/
def utf8DecodeReplace : List Nat → List Char
  | [] => []
  | b :: rest =>
    if b < 0x80 then Char.ofNat b :: utf8DecodeReplace rest
    else if b < 0xC2 then fffd :: utf8DecodeReplace rest
    else if b ≤ 0xDF then
      match rest with
      | [] => [fffd]
      | b1 :: rest1 =>
        if isCont b1 then Char.ofNat ((b - 0xC0) * 64 + (b1 - 0x80)) :: utf8DecodeReplace rest1
        else fffd :: utf8DecodeReplace (b1 :: rest1)
    else if b ≤ 0xEF then
      match rest with
      | [] => [fffd]
      | b1 :: rest1 =>
        if valid3First b b1 then
          match rest1 with
          | [] => [fffd]
          | b2 :: rest2 =>
            if isCont b2 then
              Char.ofNat ((b - 0xE0) * 4096 + (b1 - 0x80) * 64 + (b2 - 0x80)) ::
                utf8DecodeReplace rest2
            else fffd :: utf8DecodeReplace (b2 :: rest2)
        else fffd :: utf8DecodeReplace (b1 :: rest1)
    else if b ≤ 0xF4 then
      match rest with
      | [] => [fffd]
      | b1 :: rest1 =>
        if valid4First b b1 then
          match rest1 with
          | [] => [fffd]
          | b2 :: rest2 =>
            if isCont b2 then
              match rest2 with
              | [] => [fffd]
              | b3 :: rest3 =>
                if isCont b3 then
                  Char.ofNat ((b - 0xF0) * 262144 + (b1 - 0x80) * 4096 +
                    (b2 - 0x80) * 64 + (b3 - 0x80)) :: utf8DecodeReplace rest3
                else fffd :: utf8DecodeReplace (b3 :: rest3)
            else fffd :: utf8DecodeReplace (b2 :: rest2)
        else fffd :: utf8DecodeReplace (b1 :: rest1)
    else fffd :: utf8DecodeReplace rest

/-- `_decode_lossy`. -/
def decodeLossy (raw : List Nat) : String :=
  ⟨utf8DecodeReplace raw⟩

/-- The sentinel line appended on truncation, without its leading
newline. -/
def truncationSentinel (streamName : String) (maxBytes : Nat) : String :=
  "[" ++ streamName ++ " truncated at " ++ toString maxBytes ++ " bytes]"

/-- `_decode_and_cap`. -/
def decodeAndCap (raw : List Nat) (maxBytes : Nat) (streamName : String) : String :=
  if raw.length ≤ maxBytes then decodeLossy raw
  else decodeLossy (raw.take maxBytes) ++ "\n" ++ truncationSentinel streamName maxBytes

/-- `_cap_text`. -/
def capText (value : String) (maxBytes : Nat) (streamName : String) : String :=
  let raw := utf8Encode value
  if raw.length ≤ maxBytes then value
  else decodeLossy (raw.take maxBytes) ++ "\n" ++ truncationSentinel streamName maxBytes

/-- Python line-boundary characters for `str.splitlines`. -/
def isLineBoundary (c : Char) : Bool :=
  let n := c.toNat
  n = 0x0a || n = 0x0d || n = 0x0b || n = 0x0c || n = 0x1c || n = 0x1d ||
  n = 0x1e || n = 0x85 || n = 0x2028 || n = 0x2029

/-- Worker for `pySplitlines`, accumulating the current line reversed. -/
def pySplitlinesAux : List Char → List Char → List String
  | [], cur => if cur = [] then [] else [⟨cur.reverse⟩]
  | '\r' :: '\n' :: rest, cur => (⟨cur.reverse⟩ : String) :: pySplitlinesAux rest []
  | c :: rest, cur =>
    if isLineBoundary c then (⟨cur.reverse⟩ : String) :: pySplitlinesAux rest []
    else pySplitlinesAux rest (c :: cur)

/-- Python `s.splitlines()`. -/
def pySplitlines (s : String) : List String :=
  pySplitlinesAux s.data []

/-- `RESULT_MARKER`. -/
def RESULT_MARKER : String := "__RESULT_JSON__="

/-- The `for index in range(len(lines) - 1, -1, -1)` scan: the index and
content of the last line starting with the marker, if any. -/
def findLastMarker : List String → Option (Nat × String)
  | [] => Option.none
  | l :: ls =>
    match findLastMarker ls with
    | some (i, x) => some (i + 1, x)
    | Option.none => if pyStarts l RESULT_MARKER then some (0, l) else Option.none

/-- Python `line[16:]`, dropping the marker in front of the payload. -/
def strDropChars (s : String) (n : Nat) : String :=
  ⟨s.data.drop n⟩

/-- `_extract_result_json`: returns (cleaned stdout, result, parse
error, marker found). -/
def extractResultJson (loads : String → Except String JsonVal) (stdout : String) :
    String × JsonVal × Option String × Bool :=
  let lines := pySplitlines stdout
  match findLastMarker lines with
  | some (j, line) =>
    let payload := strDropChars line 16
    let cleaned := String.intercalate "\n" (lines.take j ++ lines.drop (j + 1))
    match loads payload with
    | .ok v => (cleaned, v, Option.none, true)
    | .error msg => (cleaned, .null, some ("malformed result marker JSON: " ++ msg), true)
  | Option.none =>
    let stripped := pyStrip stdout
    if stripped ≠ "" then
      match loads stripped with
      | .ok v => ("", v, Option.none, false)
      | .error _ => (stdout, .null, Option.none, false)
    else (stdout, .null, Option.none, false)

/-- `_normalize_timeout`. -/
def normalizeTimeout (timeoutDefault timeoutMax t : Int) : Int :=
  if t ≤ 0 then timeoutDefault else min t timeoutMax

/-- `_error_result`. -/
def errorResult (message : String) (exitCode : Int) (timingMs : Int := 0) : ExecutionResult :=
  { success := false, exit_code := exitCode, stderr := message, timing_ms := timingMs }

/-- The early return of `run_custom_workflow_code` when the validator
rejects the code. -/
def safetyRejectedResult (rejections : List String) : ExecutionResult :=
  { success := false, exit_code := 1,
    stderr := "custom workflow code rejected by safety policy",
    safety_rejections := rejections }

/-- The `except asyncio.TimeoutError` branch of `_execute`: kill, drain,
decode and cap, exit 124, append the timeout message. -/
def timeoutResult (stdoutMaxBytes stderrMaxBytes : Nat)
    (stdoutBytes stderrBytes : List Nat) (timingMs : Int) : ExecutionResult :=
  let stdout := decodeAndCap stdoutBytes stdoutMaxBytes "stdout"
  let stderr := decodeAndCap stderrBytes stderrMaxBytes "stderr"
  { success := false, exit_code := 124, stdout := stdout,
    stderr := if stderr ≠ "" then stderr ++ "\nexecution timed out" else "execution timed out",
    timing_ms := timingMs }

/-- The tail of `_execute` after `process.communicate()` returns in
time: decode, extract the marker, cap, append marker diagnostics, build
the result. -/
def executeCompleted (loads : String → Except String JsonVal)
    (stdoutMaxBytes stderrMaxBytes : Nat) (returncode : Option Int)
    (stdoutBytes stderrBytes : List Nat) (timingMs : Int) : ExecutionResult :=
  let fullStdout := decodeLossy stdoutBytes
  let fullStderr := decodeLossy stderrBytes
  let extracted := extractResultJson loads fullStdout
  let cleanedStdoutFull := extracted.1
  let resultJson := extracted.2.1
  let parseError := extracted.2.2.1
  let markerFound := extracted.2.2.2
  let stdout := capText cleanedStdoutFull stdoutMaxBytes "stdout"
  let stderr := capText fullStderr stderrMaxBytes "stderr"
  let stderr :=
    if !markerFound && resultJson = .null then
      if stderr ≠ "" then stderr ++ "\n" ++ "result marker not found"
      else "result marker not found"
    else stderr
  let stderr :=
    match parseError with
    | some pe => if stderr ≠ "" then stderr ++ "\n" ++ pe else pe
    | Option.none => stderr
  let exitCode := returncode.getD 0
  { success := exitCode = 0, exit_code := exitCode, stdout := stdout, stderr := stderr,
    result_json := resultJson, timing_ms := timingMs }

/-- The identical post-communicate pipeline as reached from
`run_custom_workflow_code`: both entrypoints call the one `_execute`. -/
def customCodeCompleted (loads : String → Except String JsonVal)
    (stdoutMaxBytes stderrMaxBytes : Nat) (returncode : Option Int)
    (stdoutBytes stderrBytes : List Nat) (timingMs : Int) : ExecutionResult :=
  executeCompleted loads stdoutMaxBytes stderrMaxBytes returncode stdoutBytes stderrBytes timingMs

/-- Every way the runner constructs an `ExecutionResult`: the exit-2
argument and manifest failures, the exit-70 spawn failure, the safety
rejection (whose guard requires a non-empty rejection list), the
timeout branch, and the normal completion branch shared by the workflow
and custom-code paths. -/
inductive ProducedByRunner : ExecutionResult → Prop
  | errorExit2 (msg : String) (t : Int) :
      ProducedByRunner (errorResult msg 2 t)
  | spawnFailure (msg : String) (t : Int) :
      ProducedByRunner (errorResult ("runner failed to start subprocess: " ++ msg) 70 t)
  | safetyRejected (rejections : List String) (h : rejections ≠ []) :
      ProducedByRunner (safetyRejectedResult rejections)
  | timedOut (soMax seMax : Nat) (so se : List Nat) (t : Int) :
      ProducedByRunner (timeoutResult soMax seMax so se t)
  | completed (loads : String → Except String JsonVal) (soMax seMax : Nat)
      (rc : Option Int) (so se : List Nat) (t : Int) :
      ProducedByRunner (executeCompleted loads soMax seMax rc so se t)
  | customCompleted (loads : String → Except String JsonVal) (soMax seMax : Nat)
      (rc : Option Int) (so se : List Nat) (t : Int) :
      ProducedByRunner (customCodeCompleted loads soMax seMax rc so se t)

/-! ## Capability catalog loading (capabilities/catalog.py)

`CapabilityCatalog._load_manifest` iterates the three manifest sections
in order (workflows, runtime_tools, execution_patterns) and assigns
`docs[entry["id"]] = doc` for each entry; `entry["id"]` raises KeyError
when the key is absent.  An entry is modelled by its optional id; the
remaining document fields play no part in the claims below and are
summarised by the produced document carrying its id and kind. -/

/-- A manifest entry, as far as `_load_manifest` keys it. -/
structure CatEntry where
  entryId : Option String

/-- The document stored per capability (id and the kind assigned by the
section the entry came from). -/
structure CapabilityDoc where
  id : String
  kind : String
  deriving DecidableEq, Repr

/-- One `for entry in raw.get(section, [])` loop of `_load_manifest`. -/
def loadSection (kind : String) :
    List CatEntry → List (String × CapabilityDoc) →
    Except String (List (String × CapabilityDoc))
  | [], docs => .ok docs
  | e :: rest, docs =>
    match e.entryId with
    | Option.none => .error "KeyError: 'id'"
    | some cid => loadSection kind rest (dictSet docs cid ⟨cid, kind⟩)

/-- `_load_manifest`: the three sections populate one dict keyed by
id. -/
def catalogLoad (workflows runtimeTools executionPatterns : List CatEntry) :
    Except String (List (String × CapabilityDoc)) :=
  match loadSection "workflow" workflows [] with
  | .error e => .error e
  | .ok docs =>
    match loadSection "runtime_tool" runtimeTools docs with
    | .error e => .error e
    | .ok docs =>
      loadSection "execution_pattern" executionPatterns docs

/-! ## Shared fixtures for concrete evaluations -/

/-- A decoder standing in for `json.loads` on the primitive literals
exercised by concrete runs: the JSON literals `null`, `true`, `false`
and decimal integers; everything else is a decode error, as the stdlib
raises `JSONDecodeError` there. -/
def jsonLoadsLit (s : String) : Except String JsonVal :=
  if s = "null" then .ok .null
  else if s = "true" then .ok (.jbool true)
  else if s = "false" then .ok (.jbool false)
  else
    match pyIntOfString s with
    | some n => .ok (.jint n)
    | Option.none => .error "Expecting value: line 1 column 1 (char 0)"

/-- The `symbol_usage` schema used by the repository test
`tests/test_runner_arg_bounds.py`: a required string `query` and an
integer `context_lines` with default 2, minimum 0, maximum 2. -/
def symbolUsageSchema : List (String × SchemaEntry) :=
  [("query", .isDict [("type", .str "string"), ("required", .bool true)]),
   ("context_lines", .isDict
     [("type", .str "integer"), ("required", .bool false),
      ("default", .int 2), ("minimum", .int 0), ("maximum", .int 2)])]

/-- A workflow index holding only `symbol_usage`. -/
def symbolUsageIndex : WorkflowIndex :=
  [("symbol_usage", ⟨.dict symbolUsageSchema⟩)]

/-- An index whose sole workflow has an integer argument whose schema
default 5 violates its own `maximum` 2. -/
def badDefaultIndex : WorkflowIndex :=
  [("wf", ⟨.dict [("n", .isDict
    [("type", .str "integer"), ("default", .int 5), ("maximum", .int 2)])]⟩)]

/-! ## C1 -/

/-- C1: the claim says the validator resolves a from-import to the
module joined with the imported child, accepting
`from runtime import zoekt_tools` and rejecting
`from runtime import dangerous` as `disallowed_import: runtime.dangerous`.
The code checks only `node.module`: both programs yield
`disallowed_import: runtime`, contradicting the assertions of
`tests/test_custom_workflow_safety.py`, so this is a code bug.  The
node lists are the walks of the two test programs. -/
theorem c1_from_import_ignores_children :
    validateCustomWorkflowCode
      [.importFrom (some "runtime") ["zoekt_tools"], .functionDef "run",
       .otherNode, .callE (.attributeF "list_repos")] =
      ["disallowed_import: runtime"] ∧
    validateCustomWorkflowCode
      [.importFrom (some "runtime") ["dangerous"], .functionDef "run", .otherNode] =
      ["disallowed_import: runtime"] := by
  exact ⟨rfl, rfl⟩

/-! ## C2 -/

/-- C2: the claim says coerced integer arguments are checked against
schema `minimum`/`maximum` (errors "must be >= N" / "must be <= N") and
that defaults pass through the same check.  `_coerce_cli_arg_value`
never reads `minimum` or `maximum`: the out-of-range command from
`tests/test_runner_arg_bounds.py` parses successfully with value 3, and
a schema default of 5 above a maximum of 2 is accepted as well,
contradicting that test, so this is a code bug. -/
theorem c2_bounds_not_enforced :
    parseWorkflowCliCommand symbolUsageIndex
      "symbol_usage --query \"ProcessOrder\" --context-lines 3" =
      .ok ("symbol_usage",
        [("query", .str "ProcessOrder"), ("context_lines", .int 3)]) ∧
    parseWorkflowCliCommand badDefaultIndex "wf" =
      .ok ("wf", [("n", .int 5)]) := by
  exact ⟨rfl, rfl⟩

/-! ## C9 -/

/-- C9: a from-import with no module path (`from . import X`,
`node.module is None`) contributes nothing to the validator state, for
any imported names: `_check_import` returns immediately on the empty
module name, so such imports are neither banned nor disallowed, and
prepending one to any walked program leaves the rejection list
unchanged. -/
theorem c9_relative_from_import_unchecked :
    (∀ (names : List String) (st : ValidateState),
      validateStep st (.importFrom Option.none names) = st) ∧
    (∀ (names : List String) (rest : List PyNode),
      validateCustomWorkflowCode (.importFrom Option.none names :: rest) =
        validateCustomWorkflowCode rest) := by
  have hstep : ∀ (names : List String) (st : ValidateState),
      validateStep st (.importFrom Option.none names) = st := by
    intro names st
    rfl
  refine ⟨hstep, ?_⟩
  intro names rest
  unfold validateCustomWorkflowCode
  rw [List.foldl_cons, hstep]

/-! ## C3 -/

/-- C3: on every construction path of the runner (argument and manifest
failures at exit 2, spawn failure at exit 70, safety rejection at exit 1
with its non-empty rejection list, the timeout branch at exit 124, and
normal completion on both the workflow and custom-code paths), the
produced result satisfies success iff exit_code is 0 and
safety_rejections is empty. -/
theorem c3_success_iff_exit_zero_and_no_rejections
    (r : ExecutionResult) (h : ProducedByRunner r) :
    r.success = true ↔ (r.exit_code = 0 ∧ r.safety_rejections = []) := by
  cases h with
  | errorExit2 msg t =>
    simp [errorResult]
  | spawnFailure msg t =>
    simp [errorResult]
  | safetyRejected rejections hne =>
    simp [safetyRejectedResult, hne]
  | timedOut soMax seMax so se t =>
    simp [timeoutResult]
  | completed loads soMax seMax rc so se t =>
    simp [executeCompleted]
  | customCompleted loads soMax seMax rc so se t =>
    simp [customCodeCompleted, executeCompleted]

theorem c3_success_iff_exit_zero_and_no_rejections_witness :
    ((timeoutResult 8 8 [] [] 0).success = true ↔
      ((timeoutResult 8 8 [] [] 0).exit_code = 0 ∧
       (timeoutResult 8 8 [] [] 0).safety_rejections = [])) :=
  c3_success_iff_exit_zero_and_no_rejections _ (ProducedByRunner.timedOut 8 8 [] [] 0)

/-! ## C4 -/

/-- C4: the timeout branch of `_execute` returns success false, exit
code 124, and a stderr containing "execution timed out"; the message is
appended to the partial stderr captured after the kill (decoded and
capped), with a newline separator exactly when that partial stderr is
non-empty. -/
theorem c4_timeout_shape (soMax seMax : Nat) (so se : List Nat) (t : Int) :
    (timeoutResult soMax seMax so se t).success = false ∧
    (timeoutResult soMax seMax so se t).exit_code = 124 ∧
    strContains (timeoutResult soMax seMax so se t).stderr "execution timed out" ∧
    (timeoutResult soMax seMax so se t).stderr =
      (if decodeAndCap se seMax "stderr" = "" then "execution timed out"
       else decodeAndCap se seMax "stderr" ++ "\n" ++ "execution timed out") := by
  refine ⟨rfl, rfl, ?_, ?_⟩
  · unfold timeoutResult strContains
    by_cases h : decodeAndCap se seMax "stderr" = ""
    · simp only [h]
      exact ⟨"", "", by simp⟩
    · simp only [if_pos (by simpa using h)]
      refine ⟨decodeAndCap se seMax "stderr" ++ "\n", "", ?_⟩
      simp [String.append_assoc]
  · unfold timeoutResult
    by_cases h : decodeAndCap se seMax "stderr" = "" <;>
      simp [h, String.append_assoc]

/-! ## C6 -/

theorem loadSection_nodup (kind : String) (entries : List CatEntry)
    (docs docs' : List (String × CapabilityDoc))
    (hn : (docs.map Prod.fst).Nodup)
    (h : loadSection kind entries docs = .ok docs') :
    (docs'.map Prod.fst).Nodup := by
  induction entries generalizing docs with
  | nil =>
    simp only [loadSection] at h
    cases h
    exact hn
  | cons e rest ih =>
    simp only [loadSection] at h
    cases he : e.entryId with
    | none => rw [he] at h; cases h
    | some cid =>
      rw [he] at h
      exact ih _ (dictSet_keys_nodup _ _ _ hn) h

/-- C6 counterexample: a manifest whose workflows section repeats the id
"a" and whose runtime_tools section reuses it again loads without any
failure; the later entry silently overwrites the earlier ones. -/
theorem c6_counterexample :
    catalogLoad [⟨some "a"⟩, ⟨some "a"⟩] [⟨some "a"⟩] [] =
      .ok [("a", ⟨"a", "runtime_tool"⟩)] := by
  rfl

/-- C6 as amended: loading a manifest with colliding ids is not a
load-time failure (each assignment overwrites the previous document for
that id, as the counterexample shows); what does hold is the second half
of the claim: a successfully loaded catalog never contains two
capabilities with the same id. -/
theorem c6_loaded_ids_nodup (w r p : List CatEntry)
    (docs : List (String × CapabilityDoc))
    (h : catalogLoad w r p = .ok docs) :
    (docs.map Prod.fst).Nodup := by
  unfold catalogLoad at h
  cases h1 : loadSection "workflow" w [] with
  | error e => rw [h1] at h; cases h
  | ok docs1 =>
    rw [h1] at h
    dsimp only at h
    cases h2 : loadSection "runtime_tool" r docs1 with
    | error e => rw [h2] at h; cases h
    | ok docs2 =>
      rw [h2] at h
      dsimp only at h
      have n1 := loadSection_nodup _ _ _ _ (by simp) h1
      have n2 := loadSection_nodup _ _ _ _ n1 h2
      exact loadSection_nodup _ _ _ _ n2 h

theorem c6_loaded_ids_nodup_witness :
    catalogLoad [⟨some "a"⟩, ⟨some "a"⟩] [⟨some "a"⟩] [] =
      .ok [("a", ⟨"a", "runtime_tool"⟩)] ∧
    (([("a", (⟨"a", "runtime_tool"⟩ : CapabilityDoc))].map Prod.fst)).Nodup :=
  ⟨rfl, c6_loaded_ids_nodup [⟨some "a"⟩, ⟨some "a"⟩] [⟨some "a"⟩] [] _ rfl⟩

/-! ## C10 -/

theorem findLastMarker_none (ls : List String)
    (h : ∀ l ∈ ls, pyStarts l RESULT_MARKER = false) :
    findLastMarker ls = Option.none := by
  induction ls with
  | nil => rfl
  | cons l rest ih =>
    unfold findLastMarker
    rw [ih (fun x hx => h x (List.mem_cons_of_mem l hx))]
    simp [h l (List.mem_cons_self l rest)]

theorem capText_nil_input (maxBytes : Nat) (name : String) :
    capText "" maxBytes name = "" := by
  simp [capText, utf8Encode, utf8EncodeList]

/-- C10 counterexample: stdout consisting of the JSON literal `null`
(no marker line, whole stdout parses as JSON) still gets
"result marker not found" appended to stderr, because the parsed Python
value `None` is indistinguishable from the result_json initialiser. -/
theorem c10_counterexample :
    (∀ l ∈ pySplitlines (decodeLossy (utf8Encode "null")),
      pyStarts l RESULT_MARKER = false) ∧
    jsonLoadsLit (pyStrip (decodeLossy (utf8Encode "null"))) = .ok .null ∧
    (executeCompleted jsonLoadsLit 32768 32768 (some 0) (utf8Encode "null") [] 0).stderr =
      "result marker not found" := by
  exact ⟨by decide, rfl, rfl⟩

/-- C10 as amended: for a completed (non-timeout) execution with no
marker line whose stripped stdout decodes as JSON *other than null*,
result_json is the parsed value, the returned stdout is empty, stderr
receives neither the missing-marker nor the malformed-marker message
(it stays exactly the capped child stderr), and the custom-code path
runs the identical pipeline as the workflow path.  When the parse yields
null, the missing-marker message is appended (see the
counterexample). -/
theorem c10_whole_stdout_json_fallback (loads : String → Except String JsonVal)
    (soMax seMax : Nat) (rc : Option Int) (so se : List Nat) (t : Int) (v : JsonVal)
    (hnomark : ∀ l ∈ pySplitlines (decodeLossy so), pyStarts l RESULT_MARKER = false)
    (hne : pyStrip (decodeLossy so) ≠ "")
    (hok : loads (pyStrip (decodeLossy so)) = .ok v)
    (hnn : v ≠ .null) :
    (executeCompleted loads soMax seMax rc so se t).result_json = v ∧
    (executeCompleted loads soMax seMax rc so se t).stdout = "" ∧
    (executeCompleted loads soMax seMax rc so se t).stderr =
      capText (decodeLossy se) seMax "stderr" ∧
    customCodeCompleted loads soMax seMax rc so se t =
      executeCompleted loads soMax seMax rc so se t := by
  have hex : extractResultJson loads (decodeLossy so) = ("", v, Option.none, false) := by
    unfold extractResultJson
    dsimp only
    rw [findLastMarker_none _ hnomark, if_pos hne, hok]
  refine ⟨?_, ?_, ?_, rfl⟩ <;>
  · unfold executeCompleted
    dsimp only
    rw [hex]
    try simp [capText_nil_input, hnn]

/-! ## C7 -/

theorem utf8EncodeList_append (a b : List Char) :
    utf8EncodeList (a ++ b) = utf8EncodeList a ++ utf8EncodeList b := by
  induction a with
  | nil => rfl
  | cons c cs ih => simp [utf8EncodeList, ih]

theorem utf8Encode_append (s t : String) :
    utf8Encode (s ++ t) = utf8Encode s ++ utf8Encode t := by
  unfold utf8Encode
  rw [show (s ++ t).data = s.data ++ t.data from rfl, utf8EncodeList_append]

theorem utf8Len_append (s t : String) : utf8Len (s ++ t) = utf8Len s + utf8Len t := by
  unfold utf8Len
  rw [utf8Encode_append, List.length_append]

/-- C7 counterexample: with a cap of 1 byte, the two-byte character
"é" is cut inside its encoding; the undecodable first byte decodes to
the three-byte replacement character, so the truncated stream is 33
bytes long where the claim demands 31. -/
theorem c7_counterexample :
    utf8Len "é" > 1 ∧
    utf8Len (capText "é" 1 "stdout") ≠
      1 + utf8Len ("\n" ++ truncationSentinel "stdout" 1) := by
  exact ⟨by decide, by decide⟩

/-- C7 as amended: streams at or under the cap are returned unchanged
(both for the post-extraction capper and for the raw-bytes
decode-and-cap used on timeout); a stream over the cap is returned as
the decoded capped prefix followed by the newline and the sentinel
line, and its byte length equals cap plus the byte length of the
newline and sentinel *provided the byte cap does not split a multi-byte
character*, i.e. the capped prefix is valid UTF-8 (encoding its
decoding reproduces it).  When the cap does split a character the
equation can fail, as the counterexample shows for a two-byte character
cut at 1 (though it can also hold coincidentally: a four-byte character
cut after three bytes leaves three dangling bytes that decode to one
three-byte replacement character). -/
theorem c7_truncation_shape (cap : Nat) (name : String) :
    (∀ v : String, utf8Len v ≤ cap → capText v cap name = v) ∧
    (∀ raw : List Nat, raw.length ≤ cap → decodeAndCap raw cap name = decodeLossy raw) ∧
    (∀ v p : String, utf8Len v > cap →
      utf8DecodeReplace ((utf8Encode v).take cap) = p.data →
      utf8Encode p = (utf8Encode v).take cap →
      capText v cap name = p ++ "\n" ++ truncationSentinel name cap ∧
      utf8Len (capText v cap name) = cap + utf8Len ("\n" ++ truncationSentinel name cap)) ∧
    (∀ (raw : List Nat) (p : String), raw.length > cap →
      utf8DecodeReplace (raw.take cap) = p.data →
      utf8Encode p = raw.take cap →
      decodeAndCap raw cap name = p ++ "\n" ++ truncationSentinel name cap ∧
      utf8Len (decodeAndCap raw cap name) =
        cap + utf8Len ("\n" ++ truncationSentinel name cap)) := by
  have hlenp : ∀ (raw : List Nat) (p : String), raw.length > cap →
      utf8Encode p = raw.take cap → utf8Len p = cap := by
    intro raw p hgt henc
    unfold utf8Len
    rw [henc, List.length_take]
    omega
  have hshape : ∀ (raw : List Nat) (p : String),
      utf8DecodeReplace (raw.take cap) = p.data →
      decodeLossy (raw.take cap) = p := by
    intro raw p hdec
    unfold decodeLossy
    rw [hdec]
  refine ⟨?_, ?_, ?_, ?_⟩
  · intro v hle
    unfold capText
    rw [if_pos (by simpa [utf8Len] using hle)]
  · intro raw hle
    unfold decodeAndCap
    rw [if_pos hle]
  · intro v p hover hdec henc
    unfold capText
    rw [if_neg (by simp only [utf8Len] at hover; omega), hshape _ _ hdec]
    refine ⟨by rw [String.append_assoc], ?_⟩
    rw [String.append_assoc, utf8Len_append, hlenp _ _ (by simpa [utf8Len] using hover) henc]
  · intro raw p hover hdec henc
    unfold decodeAndCap
    rw [if_neg (by omega), hshape _ _ hdec]
    refine ⟨by rw [String.append_assoc], ?_⟩
    rw [String.append_assoc, utf8Len_append, hlenp _ _ hover henc]

theorem c7_truncation_shape_witness :
    capText "ab" 1 "stdout" = "a" ++ "\n" ++ truncationSentinel "stdout" 1 ∧
    utf8Len (capText "ab" 1 "stdout") =
      1 + utf8Len ("\n" ++ truncationSentinel "stdout" 1) ∧
    capText "x" 1 "stdout" = "x" := by
  have h := (c7_truncation_shape 1 "stdout").2.2.1 "ab" "a"
    (by decide) (by decide) (by decide)
  exact ⟨h.1, h.2, (c7_truncation_shape 1 "stdout").1 "x" (by decide)⟩

theorem c10_whole_stdout_json_fallback_witness :
    (executeCompleted jsonLoadsLit 100 100 (some 0) (utf8Encode "42")
      (utf8Encode "log") 0).result_json = .jint 42 ∧
    (executeCompleted jsonLoadsLit 100 100 (some 0) (utf8Encode "42")
      (utf8Encode "log") 0).stdout = "" ∧
    (executeCompleted jsonLoadsLit 100 100 (some 0) (utf8Encode "42")
      (utf8Encode "log") 0).stderr =
      capText (decodeLossy (utf8Encode "log")) 100 "stderr" ∧
    customCodeCompleted jsonLoadsLit 100 100 (some 0) (utf8Encode "42")
      (utf8Encode "log") 0 =
      executeCompleted jsonLoadsLit 100 100 (some 0) (utf8Encode "42")
      (utf8Encode "log") 0 :=
  c10_whole_stdout_json_fallback jsonLoadsLit 100 100 (some 0)
    (utf8Encode "42") (utf8Encode "log") 0 (.jint 42)
    (by decide) (by decide) (by rfl) (by decide)

/-! ## C5 -/

theorem findLastMarker_spec (ls : List String) (j : Nat) (line : String)
    (hj : ls[j]? = some line)
    (hm : pyStarts line RESULT_MARKER = true)
    (hlast : ∀ k l', j < k → ls[k]? = some l' → pyStarts l' RESULT_MARKER = false) :
    findLastMarker ls = some (j, line) := by
  induction ls generalizing j with
  | nil => simp at hj
  | cons a rest ih =>
    cases j with
    | zero =>
      rw [List.getElem?_cons_zero] at hj
      injection hj with hj
      subst hj
      have hnone : findLastMarker rest = Option.none := by
        apply findLastMarker_none
        intro l hl
        obtain ⟨k, hk⟩ := List.mem_iff_getElem?.1 hl
        exact hlast (k + 1) l (by omega) (by simpa using hk)
      unfold findLastMarker
      rw [hnone, hm]
      rfl
    | succ n =>
      have hj' : rest[n]? = some line := by simpa using hj
      have hlast' : ∀ k l', n < k → rest[k]? = some l' →
          pyStarts l' RESULT_MARKER = false := by
        intro k l' hk hget
        exact hlast (k + 1) l' (by omega) (by simpa using hget)
      unfold findLastMarker
      rw [ih n hj' hlast']

/-- C5: when at least one stdout line begins with the marker, the
runner selects the last such line (index j below), returns the stdout
as all other lines joined in order with that line removed, parses the
payload after the 16-character marker, and reports marker_found with no
parse error when the payload decodes. -/
theorem c5_last_marker_wins (loads : String → Except String JsonVal)
    (s : String) (j : Nat) (line : String) (v : JsonVal)
    (hj : (pySplitlines s)[j]? = some line)
    (hm : pyStarts line RESULT_MARKER = true)
    (hlast : ∀ k l', j < k → (pySplitlines s)[k]? = some l' →
      pyStarts l' RESULT_MARKER = false)
    (hok : loads (strDropChars line 16) = .ok v) :
    extractResultJson loads s =
      (String.intercalate "\n"
        ((pySplitlines s).take j ++ (pySplitlines s).drop (j + 1)),
       v, Option.none, true) := by
  unfold extractResultJson
  dsimp only
  rw [findLastMarker_spec _ _ _ hj hm hlast]
  dsimp only
  rw [hok]

theorem c5_last_marker_wins_witness :
    extractResultJson jsonLoadsLit "hello\n__RESULT_JSON__=1\n__RESULT_JSON__=2\n" =
      ("hello\n__RESULT_JSON__=1", .jint 2, Option.none, true) := by
  have h := c5_last_marker_wins jsonLoadsLit
      "hello\n__RESULT_JSON__=1\n__RESULT_JSON__=2\n" 2 "__RESULT_JSON__=2" (.jint 2)
      (by rfl) (by rfl)
      (by
        intro k l' hk hget
        rw [List.getElem?_eq_none (by
          have h3 : (pySplitlines "hello\n__RESULT_JSON__=1\n__RESULT_JSON__=2\n").length = 3 := by rfl
          omega)] at hget
        cases hget)
      (by rfl)
  exact h

/-! ## C8: the canonical re-serialisation

Modelled from the spec: the round-trip claim quantifies over a
"canonical command" rebuilt from parsed args, one `--flag value` pair
per entry with the flag in its dash form and values rendered canonically
per type (strings as themselves, integers in decimal, booleans as
`true`/`false`), each token quoted with `shlex.quote` and joined by
single spaces. -/

/-- The decimal digit characters. -/
def decDigit (n : Nat) : Char :=
  if n = 0 then '0' else if n = 1 then '1' else if n = 2 then '2'
  else if n = 3 then '3' else if n = 4 then '4' else if n = 5 then '5'
  else if n = 6 then '6' else if n = 7 then '7' else if n = 8 then '8' else '9'

/-- Decimal digits of `n`, most significant first; the fuel argument is
always at least the digit count. -/
def natRenderAux : Nat → Nat → List Char
  | 0, _ => []
  | fuel + 1, n =>
    if n < 10 then [decDigit n]
    else natRenderAux fuel (n / 10) ++ [decDigit (n % 10)]

/-- Canonical decimal rendering of a natural number. -/
def natRender (n : Nat) : String :=
  ⟨natRenderAux (n + 1) n⟩

/-- Canonical per-type value rendering used by the re-serialisation. -/
def renderArgValue : PyVal → String
  | .str s => s
  | .int n => if n < 0 then "-" ++ natRender n.natAbs else natRender n.natAbs
  | .bool b => if b then "true" else "false"
  | .none => "None"

/-- One `--flag value` token pair per parsed argument, flags in dash
form. -/
def pairTokens : List (String × PyVal) → List String
  | [] => []
  | (k, v) :: rest => ("--" ++ dashed k) :: renderArgValue v :: pairTokens rest

/-- Quote each token and join with single spaces. -/
def serializeTokens : List String → List Char
  | [] => []
  | [t] => (shQuote t).data
  | t :: ts => (shQuote t).data ++ ' ' :: serializeTokens ts

/-- The canonical command `"<workflow_id> --flag value ..."`. -/
def serializeCommand (workflowId : String) (args : List (String × PyVal)) : String :=
  ⟨serializeTokens (workflowId :: pairTokens args)⟩

/-- The schema for the C8 counterexample: two argument names that
collide once underscores are rewritten to dashes, each with a string
default so that every accepted command parses to args containing
both. -/
def cexIndex : WorkflowIndex :=
  [("wf", ⟨.dict [("a-b", .isDict [("type", .str "string"), ("default", .str "x")]),
                  ("a_b", .isDict [("type", .str "string"), ("default", .str "y")])]⟩)]

/-- C8 counterexample: the command "wf" is accepted, but re-serialising
its parsed args into the canonical `--flag value` form and re-parsing
does not return the same args — both names render as the flag `--a-b`,
whose second occurrence is rejected as a duplicate, so the re-parse
fails entirely. -/
theorem c8_counterexample :
    parseWorkflowCliCommand cexIndex "wf" =
      .ok ("wf", [("a-b", .str "x"), ("a_b", .str "y")]) ∧
    parseWorkflowCliCommand cexIndex
        (serializeCommand "wf" [("a-b", .str "x"), ("a_b", .str "y")]) =
      .error ("args validation failure: duplicate flag `--a-b`. " ++
        "Usage: wf [--a-b <value>] [--a-b <value>]") := by
  exact ⟨rfl, rfl⟩

/-! ### Character-class facts -/

theorem safe_not_shlexSpace {c : Char} (h : shSafeChar c = true) :
    shlexIsSpace c = false := by
  unfold shSafeChar at h
  unfold shlexIsSpace
  simp only [Bool.or_eq_true, Bool.and_eq_true, decide_eq_true_eq] at h
  have h9 : ('\t' : Char).toNat = 9 := rfl
  have h10 : ('\n' : Char).toNat = 10 := rfl
  have h13 : ('\r' : Char).toNat = 13 := rfl
  have h32 : (' ' : Char).toNat = 32 := rfl
  simp only [Bool.or_eq_false_iff, decide_eq_false_iff_not]
  refine ⟨⟨⟨?_, ?_⟩, ?_⟩, ?_⟩ <;>
    (intro he; subst he; omega)

theorem safe_not_pySpace {c : Char} (h : shSafeChar c = true) :
    pyIsSpace c = false := by
  unfold shSafeChar at h
  unfold pyIsSpace
  simp only [Bool.or_eq_true, Bool.and_eq_true, decide_eq_true_eq] at h
  simp only [Bool.or_eq_false_iff, Bool.and_eq_false_iff, decide_eq_false_iff_not]
  omega

theorem safe_not_quote {c : Char} (h : shSafeChar c = true) :
    c ≠ '\'' ∧ c ≠ '"' ∧ c ≠ '\\' := by
  unfold shSafeChar at h
  simp only [Bool.or_eq_true, Bool.and_eq_true, decide_eq_true_eq] at h
  refine ⟨?_, ?_, ?_⟩ <;> (intro he; subst he; revert h; decide)

theorem digit_not_pySpace {c : Char} (h : c.isDigit = true) : pyIsSpace c = false := by
  rw [Char.isDigit] at h
  simp only [Bool.and_eq_true, decide_eq_true_eq] at h
  have h1 : ('0' : Char).toNat = 48 := rfl
  have h2 : ('9' : Char).toNat = 57 := rfl
  have hn : 48 ≤ c.toNat ∧ c.toNat ≤ 57 := by
    constructor
    · exact h1 ▸ h.1
    · exact h2 ▸ h.2
  unfold pyIsSpace
  simp only [Bool.or_eq_false_iff, Bool.and_eq_false_iff, decide_eq_false_iff_not]
  omega

/-! ### Decimal rendering parses back -/

theorem decDigit_spec (n : Nat) (h : n < 10) :
    (decDigit n).isDigit = true ∧ digitVal (decDigit n) = n := by
  interval_cases n <;> exact ⟨by decide, by decide⟩

theorem digit_ne_special {c : Char} (h : c.isDigit = true) :
    c ≠ '-' ∧ c ≠ '+' ∧ c ≠ '_' := by
  refine ⟨?_, ?_, ?_⟩ <;> (intro he; subst he; revert h; decide)

theorem natRenderAux_spec (fuel : Nat) :
    ∀ n, n < fuel →
      natRenderAux fuel n ≠ [] ∧
      (∀ c ∈ natRenderAux fuel n, c.isDigit = true) ∧
      (natRenderAux fuel n).foldl (fun acc c => acc * 10 + digitVal c) 0 = n := by
  induction fuel with
  | zero => intro n h; omega
  | succ fuel ih =>
    intro n hn
    by_cases h10 : n < 10
    · unfold natRenderAux
      rw [if_pos h10]
      obtain ⟨hd, hv⟩ := decDigit_spec n h10
      refine ⟨by simp, ?_, ?_⟩
      · intro c hc
        rw [List.mem_singleton] at hc
        subst hc
        exact hd
      · simp [hv]
    · unfold natRenderAux
      rw [if_neg h10]
      have hdiv : n / 10 < fuel := by omega
      obtain ⟨ihne, ihdig, ihval⟩ := ih (n / 10) hdiv
      obtain ⟨hd, hv⟩ := decDigit_spec (n % 10) (by omega)
      refine ⟨by simp, ?_, ?_⟩
      · intro c hc
        rw [List.mem_append] at hc
        rcases hc with hc | hc
        · exact ihdig c hc
        · rw [List.mem_singleton] at hc
          subst hc
          exact hd
      · rw [List.foldl_append, ihval]
        simp only [List.foldl_cons, List.foldl_nil, hv]
        omega

theorem pyDigitsAux_digits (l : List Char) :
    ∀ acc, (∀ c ∈ l, c.isDigit = true) →
      pyDigitsAux l acc = some (l.foldl (fun a c => a * 10 + digitVal c) acc) := by
  induction l with
  | nil => intro acc _; rfl
  | cons c rest ih =>
    intro acc h
    have hc := h c (List.mem_cons_self c rest)
    unfold pyDigitsAux
    rw [if_neg (digit_ne_special hc).2.2, if_pos hc]
    rw [ih _ (fun x hx => h x (List.mem_cons_of_mem c hx))]
    rfl

theorem pyParseNat_render (n : Nat) :
    pyParseNat (natRenderAux (n + 1) n) = some n := by
  obtain ⟨hne, hdig, hval⟩ := natRenderAux_spec (n + 1) n (by omega)
  cases hl : natRenderAux (n + 1) n with
  | nil => exact absurd hl hne
  | cons c rest =>
    rw [hl] at hdig hval
    have hc := hdig c (List.mem_cons_self c rest)
    simp only [pyParseNat, hc, if_true]
    rw [pyDigitsAux_digits rest _ (fun x hx => hdig x (List.mem_cons_of_mem c hx))]
    rw [List.foldl_cons] at hval
    simpa using hval

theorem stripCharsList_id_of (l : List Char) (h : ∀ c ∈ l, pyIsSpace c = false) :
    stripCharsList l = l := by
  have key : ∀ (m : List Char), (∀ c ∈ m, pyIsSpace c = false) →
      m.dropWhile pyIsSpace = m := by
    intro m hm
    cases m with
    | nil => rfl
    | cons a as =>
      rw [List.dropWhile_cons]
      simp [hm a (List.mem_cons_self a as)]
  unfold stripCharsList
  rw [key l h, key l.reverse (fun c hc => h c (List.mem_reverse.mp hc)),
    List.reverse_reverse]

theorem pyIntOfString_cons (s : String) (c : Char) (rest : List Char)
    (h : stripCharsList s.data = c :: rest) :
    pyIntOfString s =
      if c = '-' then (fun n => -(n : Int)) <$> pyParseNat rest
      else if c = '+' then (fun n => (n : Int)) <$> pyParseNat rest
      else (fun n => (n : Int)) <$> pyParseNat (c :: rest) := by
  unfold pyIntOfString
  rw [h]

theorem pyIntOfString_render (n : Int) :
    pyIntOfString (renderArgValue (.int n)) = some n := by
  obtain ⟨hne, hdig, hval⟩ := natRenderAux_spec (n.natAbs + 1) n.natAbs (by omega)
  by_cases hneg : n < 0
  · have hdata : (renderArgValue (.int n)).data =
        '-' :: natRenderAux (n.natAbs + 1) n.natAbs := by
      simp only [renderArgValue, if_pos hneg]
      rfl
    have hall : ∀ c ∈ '-' :: natRenderAux (n.natAbs + 1) n.natAbs, pyIsSpace c = false := by
      intro c hc
      rw [List.mem_cons] at hc
      rcases hc with hc | hc
      · subst hc; decide
      · exact digit_not_pySpace (hdig c hc)
    have hstrip : stripCharsList (renderArgValue (.int n)).data =
        '-' :: natRenderAux (n.natAbs + 1) n.natAbs := by
      rw [hdata]
      exact stripCharsList_id_of _ hall
    rw [pyIntOfString_cons _ _ _ hstrip, if_pos rfl, pyParseNat_render]
    show some (-(n.natAbs : Int)) = some n
    simp only [Option.some.injEq]
    omega
  · have hdata : (renderArgValue (.int n)).data = natRenderAux (n.natAbs + 1) n.natAbs := by
      simp only [renderArgValue, if_neg hneg]
      rfl
    have hstrip : stripCharsList (renderArgValue (.int n)).data =
        natRenderAux (n.natAbs + 1) n.natAbs := by
      rw [hdata]
      exact stripCharsList_id_of _ (fun c hc => digit_not_pySpace (hdig c hc))
    cases hl : natRenderAux (n.natAbs + 1) n.natAbs with
    | nil => exact absurd hl hne
    | cons c rest =>
      rw [hl] at hdig hstrip
      have hc := hdig c (List.mem_cons_self c rest)
      rw [pyIntOfString_cons _ _ _ hstrip, if_neg (digit_ne_special hc).1,
        if_neg (digit_ne_special hc).2.1, ← hl, pyParseNat_render]
      show some ((n.natAbs : Int)) = some n
      simp only [Option.some.injEq]
      omega

/-! ### shlex.split inverts the quoted serialisation -/

theorem mem_of_getLastQ {α : Type} {l : List α} {d : α} (h : l.getLast? = some d) :
    d ∈ l := by
  have hx : d ∈ l.getLast? := by simp [h]
  obtain ⟨hne, heq⟩ := List.mem_getLast?_eq_getLast hx
  rw [heq]
  exact List.getLast_mem hne

theorem step_norm_squote (rest cur : List Char) (iw : Bool) :
    shSplitAux ('\'' :: rest) .norm iw cur = shSplitAux rest .sq true cur := by
  rw [shSplitAux.eq_def]
  simp [shlexIsSpace]

theorem step_norm_dquote (rest cur : List Char) (iw : Bool) :
    shSplitAux ('"' :: rest) .norm iw cur = shSplitAux rest .dq true cur := by
  rw [shSplitAux.eq_def]
  simp [shlexIsSpace]

theorem step_norm_space (rest cur : List Char) :
    shSplitAux (' ' :: rest) .norm true cur =
      (fun ts => shWord cur :: ts) <$> shSplitAux rest .norm false [] := by
  rw [shSplitAux.eq_def]
  simp [shlexIsSpace]

theorem step_norm_safe {c : Char} (h : shSafeChar c = true) (rest cur : List Char)
    (iw : Bool) :
    shSplitAux (c :: rest) .norm iw cur = shSplitAux rest .norm true (c :: cur) := by
  obtain ⟨hq1, hq2, hq3⟩ := safe_not_quote h
  rw [shSplitAux.eq_def]
  dsimp only
  rw [if_neg (by simp [safe_not_shlexSpace h]), if_neg hq1, if_neg hq2, if_neg hq3]

theorem step_sq_close (rest cur : List Char) (iw : Bool) :
    shSplitAux ('\'' :: rest) .sq iw cur = shSplitAux rest .norm iw cur := by
  rw [shSplitAux.eq_def]
  simp

theorem step_sq_other {c : Char} (h : c ≠ '\'') (rest cur : List Char) (iw : Bool) :
    shSplitAux (c :: rest) .sq iw cur = shSplitAux rest .sq iw (c :: cur) := by
  rw [shSplitAux.eq_def]
  dsimp only
  rw [if_neg h]

theorem step_dq_close (rest cur : List Char) (iw : Bool) :
    shSplitAux ('"' :: rest) .dq iw cur = shSplitAux rest .norm iw cur := by
  rw [shSplitAux.eq_def]
  simp

theorem step_dq_squote (rest cur : List Char) (iw : Bool) :
    shSplitAux ('\'' :: rest) .dq iw cur = shSplitAux rest .dq iw ('\'' :: cur) := by
  rw [shSplitAux.eq_def]
  simp

theorem shSplitAux_safe_word (t : List Char) (hsafe : ∀ c ∈ t, shSafeChar c = true) :
    ∀ (rest cur : List Char) (iw : Bool), t ≠ [] →
      shSplitAux (t ++ rest) .norm iw cur = shSplitAux rest .norm true (t.reverse ++ cur) := by
  induction t with
  | nil => intro _ _ _ h; exact absurd rfl h
  | cons c t' ih =>
    intro rest cur iw _
    have hc := hsafe c (List.mem_cons_self c t')
    rw [List.cons_append, step_norm_safe hc]
    cases ht' : t' with
    | nil => simp
    | cons d t'' =>
      rw [← ht', ih (fun x hx => hsafe x (List.mem_cons_of_mem c hx)) rest (c :: cur) true
        (by rw [ht']; simp)]
      simp

theorem shSplitAux_sq_body (t : List Char) :
    ∀ (rest cur : List Char),
      shSplitAux (shQuoteBody t ++ '\'' :: rest) .sq true cur =
        shSplitAux rest .norm true (t.reverse ++ cur) := by
  induction t with
  | nil =>
    intro rest cur
    rw [show shQuoteBody [] = [] from rfl, List.nil_append, step_sq_close]
    simp
  | cons c t' ih =>
    intro rest cur
    by_cases hc : c = '\''
    · subst hc
      rw [show shQuoteBody ('\'' :: t') =
        '\'' :: '"' :: '\'' :: '"' :: '\'' :: shQuoteBody t' from rfl]
      simp only [List.cons_append]
      rw [step_sq_close, step_norm_dquote, step_dq_squote, step_dq_close, step_norm_squote,
        ih rest ('\'' :: cur)]
      simp
    · have hbody : shQuoteBody (c :: t') = c :: shQuoteBody t' := by
        rw [shQuoteBody.eq_def]
        dsimp only
        rw [if_neg hc]
      rw [hbody, List.cons_append, step_sq_other hc, ih rest (c :: cur)]
      simp

theorem string_ne_empty_data {t : String} (h : t ≠ "") : t.data ≠ [] := by
  intro hd
  apply h
  cases t
  simp at hd
  simp [hd]

theorem shSplitAux_quoted (t : String) (rest cur : List Char) (iw : Bool) :
    shSplitAux ((shQuote t).data ++ rest) .norm iw cur =
      shSplitAux rest .norm true (t.data.reverse ++ cur) := by
  unfold shQuote
  by_cases ht : t = ""
  · rw [if_pos ht, ht]
    show shSplitAux ('\'' :: '\'' :: rest) .norm iw cur = _
    rw [step_norm_squote, step_sq_close]
    simp
  · rw [if_neg ht]
    by_cases hsafe : t.data.all shSafeChar
    · rw [if_pos hsafe]
      exact shSplitAux_safe_word t.data (by simpa [List.all_eq_true] using hsafe)
        rest cur iw (string_ne_empty_data ht)
    · rw [if_neg hsafe]
      show shSplitAux (('\'' :: (shQuoteBody t.data ++ ['\''])) ++ rest) .norm iw cur = _
      rw [List.cons_append, step_norm_squote, List.append_assoc, List.singleton_append,
        shSplitAux_sq_body]

theorem tokenize_serialize (t : String) (ts : List String) :
    shSplitAux (serializeTokens (t :: ts)) .norm false [] = .ok (t :: ts) := by
  induction ts generalizing t with
  | nil =>
    show shSplitAux ((shQuote t).data) .norm false [] = .ok [t]
    rw [show (shQuote t).data = (shQuote t).data ++ [] by simp, shSplitAux_quoted]
    show Except.ok [shWord (t.data.reverse ++ [])] = .ok [t]
    simp [shWord]
  | cons t' ts' ih =>
    show shSplitAux ((shQuote t).data ++ ' ' :: serializeTokens (t' :: ts')) .norm false [] =
      .ok (t :: t' :: ts')
    rw [shSplitAux_quoted, step_norm_space, ih t']
    simp [shWord]

theorem shQuote_head (t : String) :
    ∃ c cs, (shQuote t).data = c :: cs ∧ pyIsSpace c = false := by
  unfold shQuote
  by_cases ht : t = ""
  · rw [if_pos ht]
    exact ⟨'\'', ['\''], rfl, by decide⟩
  · rw [if_neg ht]
    by_cases hsafe : t.data.all shSafeChar
    · rw [if_pos hsafe]
      cases hd : t.data with
      | nil => exact absurd hd (string_ne_empty_data ht)
      | cons c cs =>
        refine ⟨c, cs, rfl, safe_not_pySpace ?_⟩
        rw [List.all_eq_true] at hsafe
        exact hsafe c (by rw [hd]; exact List.mem_cons_self c cs)
    · rw [if_neg hsafe]
      exact ⟨'\'', shQuoteBody t.data ++ ['\''], rfl, by decide⟩

theorem shQuote_last (t : String) (d : Char)
    (h : (shQuote t).data.getLast? = some d) : pyIsSpace d = false := by
  unfold shQuote at h
  by_cases ht : t = ""
  · rw [if_pos ht] at h
    have h2 : (("''" : String).data).getLast? = some '\'' := by rfl
    rw [h2] at h
    injection h with h
    rw [← h]
    decide
  · rw [if_neg ht] at h
    by_cases hsafe : t.data.all shSafeChar
    · rw [if_pos hsafe] at h
      rw [List.all_eq_true] at hsafe
      exact safe_not_pySpace (hsafe d (mem_of_getLastQ h))
    · rw [if_neg hsafe] at h
      have hlast : (('\'' :: (shQuoteBody t.data ++ ['\''])) : List Char).getLast? =
          some '\'' := by
        rw [show ('\'' :: (shQuoteBody t.data ++ ['\''])) =
          ('\'' :: shQuoteBody t.data) ++ ['\''] by simp]
        rw [List.getLast?_append_of_ne_nil _ (by simp)]
        rfl
      rw [show ((⟨'\'' :: shQuoteBody t.data ++ ['\'']⟩ : String)).data =
        '\'' :: (shQuoteBody t.data ++ ['\'']) from rfl, hlast] at h
      injection h with h
      rw [← h]
      decide

theorem serializeTokens_head (t : String) (ts : List String) :
    ∃ c l, serializeTokens (t :: ts) = c :: l ∧ pyIsSpace c = false := by
  obtain ⟨c, cs, hq, hc⟩ := shQuote_head t
  cases ts with
  | nil => exact ⟨c, cs, hq, hc⟩
  | cons t' ts' =>
    refine ⟨c, cs ++ ' ' :: serializeTokens (t' :: ts'), ?_, hc⟩
    show (shQuote t).data ++ ' ' :: serializeTokens (t' :: ts') = _
    rw [hq]
    simp

theorem serializeTokens_last (t : String) (ts : List String) (d : Char)
    (h : (serializeTokens (t :: ts)).getLast? = some d) : pyIsSpace d = false := by
  induction ts generalizing t with
  | nil => exact shQuote_last t d h
  | cons t' ts' ih =>
    apply ih t'
    obtain ⟨c, l, hs, _⟩ := serializeTokens_head t' ts'
    rw [show serializeTokens (t :: t' :: ts') =
      (shQuote t).data ++ ' ' :: serializeTokens (t' :: ts') from rfl] at h
    rw [List.getLast?_append_of_ne_nil _ (by simp)] at h
    rw [show (' ' :: serializeTokens (t' :: ts')) = [' '] ++ serializeTokens (t' :: ts')
      from rfl] at h
    rw [List.getLast?_append_of_ne_nil _ (by rw [hs]; simp)] at h
    exact h

theorem serializeCommand_strip (wid : String) (args : List (String × PyVal)) :
    pyStrip (serializeCommand wid args) = serializeCommand wid args ∧
    serializeCommand wid args ≠ "" := by
  obtain ⟨c, l, hs, hc⟩ := serializeTokens_head wid (pairTokens args)
  constructor
  · apply pyStrip_eq_self
    · intro x hx
      rw [show (serializeCommand wid args).data = serializeTokens (wid :: pairTokens args)
        from rfl, hs] at hx
      simp only [List.head?_cons, Option.some.injEq] at hx
      rw [← hx]
      exact hc
    · intro x hx
      rw [show (serializeCommand wid args).data = serializeTokens (wid :: pairTokens args)
        from rfl] at hx
      exact serializeTokens_last wid (pairTokens args) x hx
  · intro he
    have hdata : (serializeCommand wid args).data = [] := by rw [he]
    rw [show (serializeCommand wid args).data = serializeTokens (wid :: pairTokens args)
      from rfl, hs] at hdata
    cases hdata

/-! ### Dictionary and flag-alias facts -/

theorem dictSet_append [DecidableEq κ] (m : List (κ × ν)) (k : κ) (v : ν)
    (h : dictHas m k = false) : dictSet m k v = m ++ [(k, v)] := by
  induction m with
  | nil => rfl
  | cons p rest ih =>
    obtain ⟨k₀, v₀⟩ := p
    unfold dictHas dictGet at h
    by_cases hk : k = k₀
    · rw [if_pos hk] at h
      simp at h
    · rw [if_neg hk] at h
      show dictSet ((k₀, v₀) :: rest) k v = (k₀, v₀) :: (rest ++ [(k, v)])
      unfold dictSet
      rw [if_neg hk, ih h]

theorem dictGet_append [DecidableEq κ] (a b : List (κ × ν)) (k : κ) :
    dictGet (a ++ b) k =
      match dictGet a k with
      | some v => some v
      | Option.none => dictGet b k := by
  induction a with
  | nil => rfl
  | cons p rest ih =>
    obtain ⟨k₀, v₀⟩ := p
    by_cases hk : k = k₀ <;> simp [dictGet, hk, ih]

theorem dictHas_append [DecidableEq κ] (a b : List (κ × ν)) (k : κ) :
    dictHas (a ++ b) k = (dictHas a k || dictHas b k) := by
  unfold dictHas
  rw [dictGet_append]
  cases dictGet a k <;> simp

theorem string_data_inj {a b : String} (h : a.data = b.data) : a = b := by
  cases a
  cases b
  exact congrArg String.mk h

theorem string_append_cancel {p a b : String} (h : p ++ a = p ++ b) : a = b := by
  apply string_data_inj
  have hd : p.data ++ a.data = p.data ++ b.data := by
    have := congrArg String.data h
    simpa using this
  exact List.append_cancel_left hd

theorem dashed_idem (s : String) : dashed (dashed s) = dashed s := by
  unfold dashed
  apply string_data_inj
  show ((⟨s.data.map _⟩ : String)).data.map _ = _
  rw [show ((⟨s.data.map (fun c => if c = '_' then '-' else c)⟩ : String)).data =
    s.data.map (fun c => if c = '_' then '-' else c) from rfl, List.map_map]
  apply List.map_congr_left
  intro c _
  by_cases hc : c = '_' <;> simp [hc]

theorem aliasFold_lookup (x : String) (entries : List (String × SchemaEntry)) :
    ∀ acc : List (String × String),
      (∀ kv ∈ entries,
        ("--" ++ kv.1 = "--" ++ dashed x ∨ "--" ++ dashed kv.1 = "--" ++ dashed x) →
        kv.1 = x) →
      (dictGet acc ("--" ++ dashed x) = some x ∨
        (dictGet acc ("--" ++ dashed x) = Option.none ∧ x ∈ entries.map Prod.fst)) →
      dictGet
        (entries.foldl
          (fun aliases kv =>
            dictSet (dictSet aliases ("--" ++ kv.1) kv.1) ("--" ++ dashed kv.1) kv.1)
          acc)
        ("--" ++ dashed x) = some x := by
  induction entries with
  | nil =>
    intro acc _ hacc
    rcases hacc with h | ⟨_, h⟩
    · simpa using h
    · simp at h
  | cons kv rest ih =>
    intro acc hcomp hacc
    obtain ⟨k, e⟩ := kv
    rw [List.foldl_cons]
    apply ih _ (fun p hp => hcomp p (List.mem_cons_of_mem _ hp))
    rw [dictGet_dictSet, dictGet_dictSet]
    by_cases h1 : ("--" ++ dashed x : String) = "--" ++ dashed k
    · left
      rw [if_pos h1]
      have hk := hcomp (k, e) (List.mem_cons_self _ _) (Or.inr h1.symm)
      rw [hk]
    · rw [if_neg h1]
      by_cases h2 : ("--" ++ dashed x : String) = "--" ++ k
      · left
        rw [if_pos h2]
        have hk := hcomp (k, e) (List.mem_cons_self _ _) (Or.inl h2.symm)
        rw [hk]
      · rw [if_neg h2]
        rcases hacc with h | ⟨hnone, hmem⟩
        · left; exact h
        · right
          refine ⟨hnone, ?_⟩
          rw [List.map_cons, List.mem_cons] at hmem
          rcases hmem with hx | hx
          · exfalso
            apply h1
            rw [hx]
          · exact hx

theorem aliases_lookup (entries : List (String × SchemaEntry)) (x : String)
    (hmem : x ∈ entries.map Prod.fst)
    (hinj : ∀ k1 ∈ entries.map Prod.fst, ∀ k2 ∈ entries.map Prod.fst,
      dashed k1 = dashed k2 → k1 = k2) :
    dictGet (workflowFlagAliases entries) ("--" ++ dashed x) = some x := by
  unfold workflowFlagAliases
  apply aliasFold_lookup x entries []
  · intro kv hkv hor
    have hkmem : kv.1 ∈ entries.map Prod.fst := List.mem_map_of_mem Prod.fst hkv
    rcases hor with h | h
    · have hk : kv.1 = dashed x := string_append_cancel h
      apply hinj kv.1 hkmem x hmem
      rw [hk, dashed_idem]
    · exact hinj kv.1 hkmem x hmem (string_append_cancel h)
  · right
    exact ⟨rfl, hmem⟩

theorem aliasFold_range (entries : List (String × SchemaEntry)) :
    ∀ (acc : List (String × String)) (tok nm : String),
      dictGet
        (entries.foldl
          (fun aliases kv =>
            dictSet (dictSet aliases ("--" ++ kv.1) kv.1) ("--" ++ dashed kv.1) kv.1)
          acc) tok = some nm →
      dictGet acc tok = some nm ∨ nm ∈ entries.map Prod.fst := by
  induction entries with
  | nil => intro acc tok nm h; left; exact h
  | cons kv rest ih =>
    intro acc tok nm h
    obtain ⟨k, e⟩ := kv
    rw [List.foldl_cons] at h
    rcases ih _ tok nm h with h' | h'
    · rw [dictGet_dictSet, dictGet_dictSet] at h'
      by_cases h1 : tok = "--" ++ dashed k
      · rw [if_pos h1] at h'
        injection h' with h'
        right
        rw [← h']
        simp
      · rw [if_neg h1] at h'
        by_cases h2 : tok = "--" ++ k
        · rw [if_pos h2] at h'
          injection h' with h'
          right
          rw [← h']
          simp
        · rw [if_neg h2] at h'
          left
          exact h'
    · right
      rw [List.map_cons, List.mem_cons]
      right
      exact h'

theorem aliases_range (entries : List (String × SchemaEntry)) (tok nm : String)
    (h : dictGet (workflowFlagAliases entries) tok = some nm) :
    nm ∈ entries.map Prod.fst := by
  rcases aliasFold_range entries [] tok nm h with h' | h'
  · simp [dictGet] at h'
  · exact h'

/-! ### Coercion of a canonically rendered value restores it -/

theorem coerce_render (k : String) (raw v : PyVal) (fields : List (String × PyVal))
    (usage usage' : String)
    (h : coerceCliArgValue k raw fields usage = .ok v) :
    coerceCliArgValue k (.str (renderArgValue v)) fields usage' = .ok v := by
  unfold coerceCliArgValue at h ⊢
  dsimp only at h ⊢
  by_cases h1 : pyLower (pyStrip (pyStr ((dictGet fields "type").getD (.str "string")))) =
      "string"
  · rw [if_pos h1] at h ⊢
    injection h with h
    rw [← h]
    rfl
  · rw [if_neg h1] at h ⊢
    by_cases h2 : pyLower (pyStrip (pyStr ((dictGet fields "type").getD (.str "string")))) =
        "integer"
    · rw [if_pos h2] at h ⊢
      cases hint : pyIntOf raw with
      | none =>
        rw [hint] at h
        exact absurd h (by simp)
      | some n =>
        rw [hint] at h
        dsimp only at h
        injection h with h
        rw [← h]
        rw [show pyIntOf (.str (renderArgValue (.int n))) = some n from pyIntOfString_render n]
    · rw [if_neg h2] at h ⊢
      by_cases h3 : pyLower (pyStrip (pyStr ((dictGet fields "type").getD (.str "string")))) =
          "boolean"
      · rw [if_pos h3] at h ⊢
        by_cases hb1 : (pyLower (pyStrip (pyStr raw)) = "true" ||
            pyLower (pyStrip (pyStr raw)) = "1" ||
            pyLower (pyStrip (pyStr raw)) = "yes" ||
            pyLower (pyStrip (pyStr raw)) = "on") = true
        · rw [if_pos hb1] at h
          injection h with h
          rw [← h]
          rfl
        · rw [if_neg hb1] at h
          by_cases hb2 : (pyLower (pyStrip (pyStr raw)) = "false" ||
              pyLower (pyStrip (pyStr raw)) = "0" ||
              pyLower (pyStrip (pyStr raw)) = "no" ||
              pyLower (pyStrip (pyStr raw)) = "off") = true
          · rw [if_pos hb2] at h
            injection h with h
            rw [← h]
            rfl
          · rw [if_neg hb2] at h
            exact absurd h (by simp)
      · rw [if_neg h3] at h ⊢
        exact absurd h (by simp)

theorem renderArgValue_not_flag (v : PyVal)
    (hs : ∀ s, v = .str s → pyStarts s "--" = false) :
    pyStarts (renderArgValue v) "--" = false := by
  cases v with
  | str s => exact hs s rfl
  | int n =>
    obtain ⟨hne, hdig, _⟩ := natRenderAux_spec (n.natAbs + 1) n.natAbs (by omega)
    cases hl : natRenderAux (n.natAbs + 1) n.natAbs with
    | nil => exact absurd hl hne
    | cons c rest =>
      rw [hl] at hdig
      have hcne : c ≠ '-' := (digit_ne_special (hdig c (List.mem_cons_self c rest))).1
      by_cases hneg : n < 0
      · have hdata : (renderArgValue (.int n)).data = '-' :: c :: rest := by
          simp only [renderArgValue, if_pos hneg]
          show '-' :: (natRender n.natAbs).data = '-' :: c :: rest
          unfold natRender
          rw [hl]
        unfold pyStarts
        rw [hdata]
        simp [listStarts, hcne]
      · have hdata : (renderArgValue (.int n)).data = c :: rest := by
          simp only [renderArgValue, if_neg hneg]
          show (natRender n.natAbs).data = c :: rest
          unfold natRender
          rw [hl]
        unfold pyStarts
        rw [hdata]
        simp [listStarts, hcne]
  | bool b => cases b <;> decide
  | none => decide

/-! ### Re-parsing the serialised pairs -/

theorem dictHas_iff_mem [DecidableEq κ] (m : List (κ × ν)) (k : κ) :
    dictHas m k = true ↔ k ∈ m.map Prod.fst := by
  induction m with
  | nil => simp [dictHas, dictGet]
  | cons p rest ih =>
    obtain ⟨k₀, v₀⟩ := p
    by_cases hk : k = k₀
    · subst hk
      simp [dictHas, dictGet]
    · simp only [dictHas, dictGet, if_neg hk, List.map_cons, List.mem_cons]
      rw [← ih]
      simp [dictHas, hk]

theorem mem_dictGet [DecidableEq κ] {m : List (κ × ν)} {k : κ} {e : ν}
    (hnd : (m.map Prod.fst).Nodup) (hmem : (k, e) ∈ m) : dictGet m k = some e := by
  induction m with
  | nil => simp at hmem
  | cons p rest ih =>
    obtain ⟨k₀, e₀⟩ := p
    rw [List.map_cons, List.nodup_cons] at hnd
    rw [List.mem_cons] at hmem
    rcases hmem with hmem | hmem
    · injection hmem with h1 h2
      subst h1
      subst h2
      simp [dictGet]
    · by_cases hk : k = k₀
      · exfalso
        apply hnd.1
        subst hk
        exact List.mem_map.mpr ⟨(k, e), hmem, rfl⟩
      · rw [show dictGet ((k₀, e₀) :: rest) k = dictGet rest k from by
          simp [dictGet, hk]]
        exact ih hnd.2 hmem

theorem parseFlagTokens_pairs (aliases : List (String × String))
    (entries : List (String × SchemaEntry)) (usage : String) :
    ∀ (rem parsedAcc : List (String × PyVal)),
      (∀ kv ∈ rem, dictGet aliases ("--" ++ dashed kv.1) = some kv.1) →
      (∀ kv ∈ rem, coerceCliArgValue kv.1 (.str (renderArgValue kv.2))
        (effectiveEntry entries kv.1) usage = .ok kv.2) →
      (∀ kv ∈ rem, pyStarts (renderArgValue kv.2) "--" = false) →
      (∀ kv ∈ rem, dictHas parsedAcc kv.1 = false) →
      (rem.map Prod.fst).Nodup →
      parseFlagTokens aliases entries usage (pairTokens rem) parsedAcc =
        .ok (parsedAcc ++ rem) := by
  intro rem
  induction rem with
  | nil =>
    intro acc _ _ _ _ _
    simp [pairTokens, parseFlagTokens]
  | cons kv rest ih =>
    intro acc ha hc hsflag hd hnd
    obtain ⟨k, v⟩ := kv
    have hahead := ha (k, v) (List.mem_cons_self _ _)
    have hchead := hc (k, v) (List.mem_cons_self _ _)
    have hshead := hsflag (k, v) (List.mem_cons_self _ _)
    have hdhead := hd (k, v) (List.mem_cons_self _ _)
    rw [show pairTokens ((k, v) :: rest) =
      ("--" ++ dashed k) :: renderArgValue v :: pairTokens rest from rfl]
    rw [parseFlagTokens.eq_def]
    dsimp only
    rw [if_neg (by simp [pyStarts_append]), hahead]
    dsimp only
    rw [if_neg (by simp [hdhead])]
    rw [if_neg (by simp [hshead]), hchead]
    dsimp only
    rw [dictSet_append _ _ _ hdhead]
    rw [List.map_cons, List.nodup_cons] at hnd
    have hrec := ih (acc ++ [(k, v)])
      (fun p hp => ha p (List.mem_cons_of_mem _ hp))
      (fun p hp => hc p (List.mem_cons_of_mem _ hp))
      (fun p hp => hsflag p (List.mem_cons_of_mem _ hp))
      (fun p hp => by
        rw [dictHas_append, hd p (List.mem_cons_of_mem _ hp)]
        have : dictHas [(k, v)] p.1 = false := by
          rw [show (dictHas [(k, v)] p.1 = false) =
            (dictHas ((k, v) :: ([] : List (String × PyVal))) p.1 = false) from rfl]
          unfold dictHas dictGet
          rw [if_neg ?hne]
          · rfl
          case hne =>
            intro he
            apply hnd.1
            exact List.mem_map.mpr ⟨p, hp, he⟩
        rw [this]
        rfl)
      hnd.2
    rw [hrec]
    simp

theorem applyDefaults_noop (usage : String) (entries : List (String × SchemaEntry))
    (parsed : List (String × PyVal))
    (h : ∀ kv ∈ entries, ∀ fields, kv.2 = .isDict fields →
      dictHas fields "default" = true → dictHas parsed kv.1 = true) :
    applyDefaults usage entries parsed = .ok parsed := by
  induction entries with
  | nil => rfl
  | cons kv rest ih =>
    obtain ⟨k, e⟩ := kv
    rw [applyDefaults.eq_def]
    dsimp only
    by_cases hk : dictHas parsed k = true
    · rw [if_pos hk]
      exact ih (fun p hp => h p (List.mem_cons_of_mem _ hp))
    · rw [if_neg hk]
      cases e with
      | notDict w =>
        dsimp only
        exact ih (fun p hp => h p (List.mem_cons_of_mem _ hp))
      | isDict fields =>
        dsimp only
        cases hdef : dictGet fields "default" with
        | none =>
          try rw [hdef]
          dsimp only
          exact ih (fun p hp => h p (List.mem_cons_of_mem _ hp))
        | some dv =>
          exfalso
          apply hk
          apply h (k, .isDict fields) (List.mem_cons_self _ _) fields rfl
          unfold dictHas
          rw [hdef]
          rfl

theorem missingRequired_nil (entries : List (String × SchemaEntry))
    (parsed : List (String × PyVal))
    (h : ∀ kv ∈ entries, entryRequired kv.2 = true → dictHas parsed kv.1 = true) :
    missingRequired entries parsed = [] := by
  unfold missingRequired
  rw [List.filter_eq_nil_iff.mpr]
  · rfl
  · intro kv hkv
    by_cases hreq : entryRequired kv.2 = true
    · simp [hreq, h kv hkv hreq]
    · simp [hreq]

/-! ### What a successful parse guarantees about its args -/

/-- A parsed argument pair whose key names a schema entry and whose
value was produced by the coercer for that entry. -/
def GoodArg (entries : List (String × SchemaEntry)) (usage : String)
    (kv : String × PyVal) : Prop :=
  kv.1 ∈ entries.map Prod.fst ∧
  ∃ raw, coerceCliArgValue kv.1 raw (effectiveEntry entries kv.1) usage = .ok kv.2

theorem nodup_append_singleton {α : Type} {l : List α} {x : α}
    (h : l.Nodup) (hx : x ∉ l) : (l ++ [x]).Nodup := by
  refine List.Nodup.append h (List.nodup_singleton x) ?_
  intro a ha hb
  rw [List.mem_singleton] at hb
  exact hx (hb ▸ ha)

theorem dictHas_dictSet_self [DecidableEq κ] (m : List (κ × ν)) (k : κ) (v : ν) :
    dictHas (dictSet m k v) k = true := by
  unfold dictHas
  rw [dictGet_dictSet, if_pos rfl]
  rfl

theorem dictHas_dictSet_mono [DecidableEq κ] (m : List (κ × ν)) (k x : κ) (v : ν)
    (h : dictHas m x = true) : dictHas (dictSet m k v) x = true := by
  unfold dictHas at h ⊢
  rw [dictGet_dictSet]
  by_cases hx : x = k
  · rw [if_pos hx]; rfl
  · rw [if_neg hx]; exact h

theorem parseFlagTokens_inv (entries : List (String × SchemaEntry)) (usage : String) :
    ∀ (n : Nat) (toks : List String), toks.length ≤ n →
      ∀ (parsed out : List (String × PyVal)),
        parseFlagTokens (workflowFlagAliases entries) entries usage toks parsed = .ok out →
        ((∀ kv ∈ parsed, GoodArg entries usage kv) → ∀ kv ∈ out, GoodArg entries usage kv) ∧
        ((parsed.map Prod.fst).Nodup → (out.map Prod.fst).Nodup) := by
  intro n
  induction n with
  | zero =>
    intro toks hlen parsed out h
    rw [List.length_eq_zero.mp (Nat.le_zero.mp hlen)] at h
    rw [parseFlagTokens.eq_def] at h
    dsimp only at h
    injection h with h
    subst h
    exact ⟨fun hb => hb, fun hn => hn⟩
  | succ n ihn =>
    intro toks hlen parsed out h
    cases toks with
    | nil =>
      rw [parseFlagTokens.eq_def] at h
      dsimp only at h
      injection h with h
      subst h
      exact ⟨fun hb => hb, fun hn => hn⟩
    | cons token rest =>
      rw [parseFlagTokens.eq_def] at h
      dsimp only at h
      by_cases hflag : pyStarts token "--" = false
      · rw [if_pos hflag] at h
        exact absurd h (by simp)
      · rw [if_neg hflag] at h
        cases heqA : dictGet (workflowFlagAliases entries) token with
        | none => rw [heqA] at h; exact absurd h (by simp)
        | some argName =>
          rw [heqA] at h
          dsimp only at h
          by_cases hdup : dictHas parsed argName = true
          · rw [if_pos hdup] at h
            exact absurd h (by simp)
          · rw [if_neg hdup] at h
            cases rest with
            | nil => exact absurd h (by simp)
            | cons valueTok rest' =>
              dsimp only at h
              by_cases hval : pyStarts valueTok "--" = true
              · rw [if_pos hval] at h
                exact absurd h (by simp)
              · rw [if_neg hval] at h
                cases heqC : coerceCliArgValue argName (.str valueTok)
                    (effectiveEntry entries argName) usage with
                | error e => rw [heqC] at h; exact absurd h (by simp)
                | ok v =>
                  rw [heqC] at h
                  dsimp only at h
                  have hduf : dictHas parsed argName = false := by
                    cases hd : dictHas parsed argName
                    · rfl
                    · exact absurd hd hdup
                  rw [dictSet_append _ _ _ hduf] at h
                  have hlen' : rest'.length ≤ n := by
                    simp only [List.length_cons] at hlen
                    omega
                  obtain ⟨hP, hN⟩ := ihn rest' hlen' _ out h
                  constructor
                  · intro hbase kv hkv
                    apply hP ?_ kv hkv
                    intro p hp
                    rw [List.mem_append] at hp
                    rcases hp with hp | hp
                    · exact hbase p hp
                    · rw [List.mem_singleton] at hp
                      subst hp
                      exact ⟨aliases_range entries token argName heqA, .str valueTok, heqC⟩
                  · intro hnd
                    apply hN
                    rw [List.map_append]
                    apply nodup_append_singleton hnd
                    intro hmem
                    rw [← dictHas_iff_mem] at hmem
                    exact absurd hmem hdup

theorem applyDefaults_inv (usage : String) (entries : List (String × SchemaEntry))
    (hnd : (entries.map Prod.fst).Nodup) :
    ∀ (rem : List (String × SchemaEntry)), (∀ kv ∈ rem, kv ∈ entries) →
    ∀ (parsed out : List (String × PyVal)),
      applyDefaults usage rem parsed = .ok out →
      ((∀ kv ∈ parsed, GoodArg entries usage kv) → ∀ kv ∈ out, GoodArg entries usage kv) ∧
      ((parsed.map Prod.fst).Nodup → (out.map Prod.fst).Nodup) ∧
      (∀ x, dictHas parsed x = true → dictHas out x = true) ∧
      (∀ kv ∈ rem, ∀ fields, kv.2 = .isDict fields → dictHas fields "default" = true →
        dictHas out kv.1 = true) := by
  intro rem
  induction rem with
  | nil =>
    intro _ parsed out h
    rw [show applyDefaults usage [] parsed = .ok parsed from rfl] at h
    injection h with h
    subst h
    exact ⟨fun hb => hb, fun hn => hn, fun _ hx => hx, fun kv hkv => by simp at hkv⟩
  | cons kve rem' ih =>
    intro hsub parsed out h
    obtain ⟨k, e⟩ := kve
    have hsub' : ∀ kv ∈ rem', kv ∈ entries := fun p hp => hsub p (List.mem_cons_of_mem _ hp)
    rw [applyDefaults.eq_def] at h
    dsimp only at h
    by_cases hk : dictHas parsed k = true
    · rw [if_pos hk] at h
      obtain ⟨A, B, C, D⟩ := ih hsub' parsed out h
      refine ⟨A, B, C, ?_⟩
      intro kv hkv fields hf hdefault
      rw [List.mem_cons] at hkv
      rcases hkv with hkv | hkv
      · rw [hkv]
        exact C k hk
      · exact D kv hkv fields hf hdefault
    · rw [if_neg hk] at h
      cases e with
      | notDict w =>
        dsimp only at h
        obtain ⟨A, B, C, D⟩ := ih hsub' parsed out h
        refine ⟨A, B, C, ?_⟩
        intro kv hkv fields hf hdefault
        rw [List.mem_cons] at hkv
        rcases hkv with hkv | hkv
        · rw [hkv] at hf
          exact absurd hf (by simp)
        · exact D kv hkv fields hf hdefault
      | isDict fields =>
        dsimp only at h
        cases hdef : dictGet fields "default" with
        | none =>
          rw [hdef] at h
          dsimp only at h
          obtain ⟨A, B, C, D⟩ := ih hsub' parsed out h
          refine ⟨A, B, C, ?_⟩
          intro kv hkv fields' hf hdefault
          rw [List.mem_cons] at hkv
          rcases hkv with hkv | hkv
          · exfalso
            rw [hkv] at hf
            dsimp only at hf
            injection hf with hf
            rw [← hf] at hdefault
            unfold dictHas at hdefault
            rw [hdef] at hdefault
            exact absurd hdefault (by simp)
          · exact D kv hkv fields' hf hdefault
        | some dv =>
          rw [hdef] at h
          dsimp only at h
          cases heqC : coerceCliArgValue k dv fields usage with
          | error err => rw [heqC] at h; exact absurd h (by simp)
          | ok v =>
            rw [heqC] at h
            dsimp only at h
            have hduf : dictHas parsed k = false := by
              cases hd : dictHas parsed k
              · rfl
              · exact absurd hd hk
            obtain ⟨A, B, C, D⟩ := ih hsub' _ out h
            have heff : effectiveEntry entries k = fields := by
              unfold effectiveEntry
              rw [mem_dictGet hnd (hsub (k, .isDict fields) (List.mem_cons_self _ _))]
            refine ⟨?_, ?_, ?_, ?_⟩
            · intro hbase kv hkv
              apply A ?_ kv hkv
              intro p hp
              rw [dictSet_append _ _ _ hduf, List.mem_append] at hp
              rcases hp with hp | hp
              · exact hbase p hp
              · rw [List.mem_singleton] at hp
                subst hp
                refine ⟨?_, dv, ?_⟩
                · exact List.mem_map.mpr ⟨(k, .isDict fields),
                    hsub (k, .isDict fields) (List.mem_cons_self _ _), rfl⟩
                · rw [heff]
                  exact heqC
            · intro hn
              apply B
              rw [dictSet_append _ _ _ hduf, List.map_append]
              apply nodup_append_singleton hn
              intro hmem
              rw [← dictHas_iff_mem] at hmem
              exact absurd hmem hk
            · intro x hx
              exact C x (dictHas_dictSet_mono _ _ _ _ hx)
            · intro kv hkv fields' hf hdefault
              rw [List.mem_cons] at hkv
              rcases hkv with hkv | hkv
              · rw [hkv]
                exact C k (dictHas_dictSet_self _ _ _)
              · exact D kv hkv fields' hf hdefault

theorem missingRequired_nil_inv (entries : List (String × SchemaEntry))
    (parsed : List (String × PyVal))
    (h : missingRequired entries parsed = []) :
    ∀ kv ∈ entries, entryRequired kv.2 = true → dictHas parsed kv.1 = true := by
  intro kv hkv hreq
  unfold missingRequired at h
  rw [List.map_eq_nil_iff] at h
  have := List.filter_eq_nil_iff.mp h kv hkv
  rw [hreq] at this
  cases hd : dictHas parsed kv.1
  · exfalso
    apply this
    rw [hd]
    rfl
  · rfl

/-- C8 as amended: the round trip holds for every accepted command
whose workflow schema has no two argument names colliding after the
underscore-to-dash rewrite (the counterexample shows collisions break
it), and whose parsed string values do not begin with "--" (such values
re-parse as missing flag values).  Re-serialising the parsed args into
the canonical command (dash-form flags, canonically rendered values,
shlex-quoted tokens joined by spaces) and re-parsing yields the same
workflow id and the identical args map, defaults included. -/
theorem c8_roundtrip_canonical (idx : WorkflowIndex) (S wid : String)
    (args : List (String × PyVal)) (wf : Workflow)
    (hwf : dictGet idx wid = some wf)
    (hnd : ((schemaEntries wf.argSchema).map Prod.fst).Nodup)
    (hinj : ∀ k1 ∈ (schemaEntries wf.argSchema).map Prod.fst,
      ∀ k2 ∈ (schemaEntries wf.argSchema).map Prod.fst, dashed k1 = dashed k2 → k1 = k2)
    (hparse : parseWorkflowCliCommand idx S = .ok (wid, args))
    (hstr : ∀ kv ∈ args, ∀ s, kv.2 = .str s → pyStarts s "--" = false) :
    parseWorkflowCliCommand idx (serializeCommand wid args) = .ok (wid, args) := by
  -- invert the original parse down to its three phases
  unfold parseWorkflowCliCommand at hparse
  dsimp only at hparse
  by_cases h0 : pyStrip S = ""
  · rw [if_pos h0] at hparse
    exact absurd hparse (by simp)
  · rw [if_neg h0] at hparse
    cases hsp : shlexSplit (pyStrip S) with
    | error e =>
      rw [hsp] at hparse
      exact absurd hparse (by simp)
    | ok tokens =>
      rw [hsp] at hparse
      cases tokens with
      | nil => exact absurd hparse (by simp)
      | cons wid' rest₀ =>
        dsimp only at hparse
        cases hlk : dictGet idx wid' with
        | none =>
          rw [hlk] at hparse
          exact absurd hparse (by simp)
        | some wf' =>
          rw [hlk] at hparse
          dsimp only at hparse
          cases hat : parseArgTokens wid' wf' rest₀ with
          | error e =>
            rw [hat] at hparse
            exact absurd hparse (by simp)
          | ok args' =>
            rw [hat] at hparse
            dsimp only at hparse
            injection hparse with hparse
            injection hparse with hw ha
            subst wid'
            subst args'
            rw [hwf] at hlk
            injection hlk with hlk
            subst wf'
            -- phase inversion of parseArgTokens
            unfold parseArgTokens at hat
            dsimp only at hat
            cases hpf : parseFlagTokens (workflowFlagAliases (schemaEntries wf.argSchema))
                (schemaEntries wf.argSchema)
                (workflowUsage wid (schemaEntries wf.argSchema)) rest₀ [] with
            | error e =>
              rw [hpf] at hat
              exact absurd hat (by simp)
            | ok parsed1 =>
              rw [hpf] at hat
              dsimp only at hat
              cases had : applyDefaults (workflowUsage wid (schemaEntries wf.argSchema))
                  (schemaEntries wf.argSchema) parsed1 with
              | error e =>
                rw [had] at hat
                exact absurd hat (by simp)
              | ok parsed2 =>
                rw [had] at hat
                dsimp only at hat
                by_cases hmr : missingRequired (schemaEntries wf.argSchema) parsed2 = []
                · rw [if_pos hmr] at hat
                  injection hat with hat
                  subst hat
                  -- collected facts about args
                  obtain ⟨hPf, hNf⟩ := parseFlagTokens_inv (schemaEntries wf.argSchema)
                    (workflowUsage wid (schemaEntries wf.argSchema)) rest₀.length rest₀
                    (le_refl _) [] parsed1 hpf
                  have hGood1 := hPf (fun kv hkv => absurd hkv (List.not_mem_nil kv))
                  have hND1 := hNf (by simp)
                  obtain ⟨A, B, C, D⟩ := applyDefaults_inv
                    (workflowUsage wid (schemaEntries wf.argSchema))
                    (schemaEntries wf.argSchema) hnd (schemaEntries wf.argSchema)
                    (fun kv hkv => hkv) parsed1 parsed2 had
                  have hGood : ∀ kv ∈ parsed2,
                      GoodArg (schemaEntries wf.argSchema)
                        (workflowUsage wid (schemaEntries wf.argSchema)) kv := A hGood1
                  have hNDargs := B hND1
                  have hReq := missingRequired_nil_inv _ _ hmr
                  -- the re-parse
                  obtain ⟨hstrip, hne⟩ := serializeCommand_strip wid parsed2
                  have hsplit : shlexSplit (serializeCommand wid parsed2) =
                      .ok (wid :: pairTokens parsed2) := by
                    show shSplitAux (serializeCommand wid parsed2).data .norm false [] = _
                    rw [show (serializeCommand wid parsed2).data =
                      serializeTokens (wid :: pairTokens parsed2) from rfl]
                    exact tokenize_serialize wid (pairTokens parsed2)
                  have hat2 : parseArgTokens wid wf (pairTokens parsed2) = .ok parsed2 := by
                    unfold parseArgTokens
                    dsimp only
                    have hflags := parseFlagTokens_pairs
                      (workflowFlagAliases (schemaEntries wf.argSchema))
                      (schemaEntries wf.argSchema)
                      (workflowUsage wid (schemaEntries wf.argSchema)) parsed2 []
                      (fun kv hkv => aliases_lookup _ kv.1 (hGood kv hkv).1 hinj)
                      (fun kv hkv => by
                        obtain ⟨_, raw, hco⟩ := hGood kv hkv
                        exact coerce_render kv.1 raw kv.2 _ _ _ hco)
                      (fun kv hkv => renderArgValue_not_flag kv.2 (hstr kv hkv))
                      (fun kv _ => rfl)
                      hNDargs
                    rw [List.nil_append] at hflags
                    rw [hflags]
                    dsimp only
                    rw [applyDefaults_noop _ _ _ D]
                    dsimp only
                    rw [if_pos (missingRequired_nil _ _ hReq)]
                  unfold parseWorkflowCliCommand
                  dsimp only
                  rw [hstrip, if_neg hne, hsplit]
                  dsimp only
                  rw [hwf]
                  dsimp only
                  rw [hat2]
                · rw [if_neg hmr] at hat
                  exact absurd hat (by simp)

theorem c8_roundtrip_canonical_witness :
    parseWorkflowCliCommand symbolUsageIndex "symbol_usage --query ProcessOrder" =
      .ok ("symbol_usage",
        [("query", .str "ProcessOrder"), ("context_lines", .int 2)]) ∧
    serializeCommand "symbol_usage"
        [("query", .str "ProcessOrder"), ("context_lines", .int 2)] =
      "symbol_usage --query ProcessOrder --context-lines 2" ∧
    parseWorkflowCliCommand symbolUsageIndex
        (serializeCommand "symbol_usage"
          [("query", .str "ProcessOrder"), ("context_lines", .int 2)]) =
      .ok ("symbol_usage",
        [("query", .str "ProcessOrder"), ("context_lines", .int 2)]) := by
  refine ⟨by rfl, by rfl, ?_⟩
  refine c8_roundtrip_canonical symbolUsageIndex "symbol_usage --query ProcessOrder"
    "symbol_usage" [("query", .str "ProcessOrder"), ("context_lines", .int 2)]
    ⟨.dict symbolUsageSchema⟩ (by rfl) (by decide) (by decide) (by rfl) ?hstr
  case hstr =>
    intro kv hkv s hs
    simp only [List.mem_cons, List.not_mem_nil, or_false] at hkv
    rcases hkv with hkv | hkv
    · subst hkv
      cases hs
      decide
    · subst hkv
      exact absurd hs (by simp)

end ZoektMcp
